import Mathlib

/-!
Verification of the aggregation / outage-detection engine of the
network-connection-monitor repository (`network_monitor.py`).

The Python source is shallowly embedded: the per-bucket statistics record
`AggregatedStats`, the ingest path `NetworkMonitor._update_stats`, the outage
scanner `NetworkMonitor._detect_outages`, the retention pass
`NetworkMonitor._cleanup_old_data` and the exporters `DataExporter.to_csv` /
`DataExporter.to_json` become executable Lean functions.  Machine floats are
modelled as rationals, Python dicts as insertion-ordered association lists,
`datetime` values as a six-field record with the proleptic-Gregorian second
count used by `datetime` subtraction, and `strftime`/`strptime` with the
fixed-width `YYYY-MM-DD HH:MM:SS` format as explicit character-list
formatting/parsing.  Code that can raise (`strptime`, ingesting an unknown
host) returns `Option`.
-/

namespace NetMon

/-- Model of `AggregatedStats` (network_monitor.py, lines 56-62): one bucket of
counters plus the append-only RTT sample list.  RTTs (Python floats) are
modelled as rationals. -/
structure AggregatedStats where
  sent : Nat
  received : Nat
  rtts : List ℚ
  success_count : Nat
  fail_count : Nat
deriving DecidableEq, Repr

/-- Model of the `AggregatedStats()` default constructor: all counters zero,
no RTT samples. -/
def emptyStats : AggregatedStats := ⟨0, 0, [], 0, 0⟩

/-- Model of the `avg_rtt` property (line 64-66):
`sum(self.rtts) / len(self.rtts) if self.rtts else 0`. -/
def AggregatedStats.avg_rtt (s : AggregatedStats) : ℚ :=
  if s.rtts = [] then 0 else s.rtts.sum / (s.rtts.length : ℚ)

/-- Model of the `packet_loss` property (line 68-70):
`(self.sent - self.received) / self.sent if self.sent > 0 else 0`. -/
def AggregatedStats.packet_loss (s : AggregatedStats) : ℚ :=
  if 0 < s.sent then ((s.sent : ℚ) - (s.received : ℚ)) / (s.sent : ℚ) else 0

/-- Model of a Python `datetime` value (date and wall-clock time, second
precision; sub-second precision never reaches the time-key logic because
`strftime` truncates it). -/
structure DateTime where
  year : Nat
  month : Nat
  day : Nat
  hour : Nat
  minute : Nat
  second : Nat
deriving DecidableEq, Repr

/-- Gregorian leap-year rule, as used by Python's `datetime`. -/
def isLeap (y : Nat) : Bool := y % 4 == 0 && (y % 100 != 0 || y % 400 == 0)

/-- Number of days of month `m` in year `y` (proleptic Gregorian calendar). -/
def daysInMonth (y m : Nat) : Nat :=
  if m = 2 then (if isLeap y then 29 else 28)
  else if m = 4 ∨ m = 6 ∨ m = 9 ∨ m = 11 then 30
  else 31

/-- Field ranges accepted by the `datetime` constructor (year 1-9999, valid
month/day, 24h clock). -/
def DateTime.Valid (t : DateTime) : Prop :=
  1 ≤ t.year ∧ t.year ≤ 9999 ∧ 1 ≤ t.month ∧ t.month ≤ 12 ∧ 1 ≤ t.day ∧
    t.day ≤ daysInMonth t.year t.month ∧ t.hour ≤ 23 ∧ t.minute ≤ 59 ∧ t.second ≤ 59

instance (t : DateTime) : Decidable t.Valid := by
  unfold DateTime.Valid; infer_instance

/-- Chronological (strict) order on `DateTime`: Python compares `datetime`
values field-lexicographically. -/
def DateTime.lt (a b : DateTime) : Prop :=
  a.year < b.year ∨ (a.year = b.year ∧ (a.month < b.month ∨ (a.month = b.month ∧
    (a.day < b.day ∨ (a.day = b.day ∧ (a.hour < b.hour ∨ (a.hour = b.hour ∧
      (a.minute < b.minute ∨ (a.minute = b.minute ∧ a.second < b.second)))))))))

instance (a b : DateTime) : Decidable (a.lt b) := by
  unfold DateTime.lt; infer_instance

/-- Two zero-padded decimal digits, as produced by `strftime` for `%m`, `%d`,
`%H`, `%M`, `%S` (all validated fields are below 100). -/
def pad2 (n : Nat) : List Char := [Nat.digitChar (n / 10), Nat.digitChar (n % 10)]

/-- Four zero-padded decimal digits, as produced by `strftime` for `%Y` on a
year at most 9999. -/
def pad4 (n : Nat) : List Char :=
  [Nat.digitChar (n / 1000), Nat.digitChar (n / 100 % 10),
    Nat.digitChar (n / 10 % 10), Nat.digitChar (n % 10)]

/-- Character sequence of `now.strftime('%Y-%m-%d %H:%M:%S')` (line 532). -/
def fmtSecondList (t : DateTime) : List Char :=
  pad4 t.year ++ '-' :: (pad2 t.month ++ '-' :: (pad2 t.day ++ ' ' ::
    (pad2 t.hour ++ ':' :: (pad2 t.minute ++ ':' :: pad2 t.second))))

/-- Second-resolution time key: `now.strftime('%Y-%m-%d %H:%M:%S')`. -/
def fmtSecond (t : DateTime) : String := ⟨fmtSecondList t⟩

/-- Character sequence of `now.strftime('%Y-%m-%d %H:%M:00')` (line 532). -/
def fmtMinuteList (t : DateTime) : List Char :=
  pad4 t.year ++ '-' :: (pad2 t.month ++ '-' :: (pad2 t.day ++ ' ' ::
    (pad2 t.hour ++ ':' :: (pad2 t.minute ++ ':' :: ['0', '0']))))

/-- Minute-resolution time key: `now.strftime('%Y-%m-%d %H:%M:00')`. -/
def fmtMinute (t : DateTime) : String := ⟨fmtMinuteList t⟩

/-- Character sequence of `now.strftime('%Y-%m-%d %H:00:00')` (line 532). -/
def fmtHourList (t : DateTime) : List Char :=
  pad4 t.year ++ '-' :: (pad2 t.month ++ '-' :: (pad2 t.day ++ ' ' ::
    (pad2 t.hour ++ ':' :: ('0' :: '0' :: ':' :: ['0', '0']))))

/-- Hour-resolution time key: `now.strftime('%Y-%m-%d %H:00:00')`. -/
def fmtHour (t : DateTime) : String := ⟨fmtHourList t⟩

/-- Decimal digit value of a character, `none` on a non-digit. -/
def charDigit (c : Char) : Option Nat :=
  if '0' ≤ c ∧ c ≤ '9' then some (c.toNat - 48) else none

/-- Character-level body of `parseKey`. -/
def parseKeyChars (cs : List Char) : Option DateTime :=
  match cs with
  | [y1, y2, y3, y4, c1, mo1, mo2, c2, d1, d2, c3, h1, h2, c4, mi1, mi2, c5, s1, s2] =>
    if c1 = '-' ∧ c2 = '-' ∧ c3 = ' ' ∧ c4 = ':' ∧ c5 = ':' then
      match charDigit y1, charDigit y2, charDigit y3, charDigit y4,
            charDigit mo1, charDigit mo2, charDigit d1, charDigit d2,
            charDigit h1, charDigit h2, charDigit mi1, charDigit mi2,
            charDigit s1, charDigit s2 with
      | some a1, some a2, some a3, some a4, some b1, some b2, some e1, some e2,
        some f1, some f2, some g1, some g2, some j1, some j2 =>
        let t : DateTime :=
          ⟨((a1 * 10 + a2) * 10 + a3) * 10 + a4, b1 * 10 + b2, e1 * 10 + e2,
            f1 * 10 + f2, g1 * 10 + g2, j1 * 10 + j2⟩
        if t.Valid then some t else none
      | _, _, _, _, _, _, _, _, _, _, _, _, _, _ => none
    else none
  | _ => none

/-- Model of `datetime.strptime(key, '%Y-%m-%d %H:%M:%S')` (lines 506, 510):
a fixed-width parse that fails (raises, modelled as `none`) on any malformed
key or out-of-range field. -/
def parseKey (s : String) : Option DateTime := parseKeyChars s.data

/-- Days contributed by the full months before month `m` of year `y`. -/
def daysBeforeMonth (y m : Nat) : Nat :=
  (List.range (m - 1)).foldl (fun acc i => acc + daysInMonth y (i + 1)) 0

/-- Proleptic-Gregorian day number (Python `datetime.toordinal`):
day 1 is 0001-01-01. -/
def toOrdinal (t : DateTime) : Nat :=
  (t.year - 1) * 365 + (t.year - 1) / 4 - (t.year - 1) / 100 + (t.year - 1) / 400 +
    daysBeforeMonth t.year t.month + t.day

/-- Absolute second count of a `DateTime`; differences of this quantity are
exactly `(a - b).total_seconds()` for second-precision `datetime` values. -/
def toSec (t : DateTime) : Nat :=
  ((toOrdinal t * 24 + t.hour) * 60 + t.minute) * 60 + t.second

/-- One per-resolution mapping of a `BucketStore`: a Python dict from time-key
strings to `AggregatedStats`, modelled as an insertion-ordered association
list (Python dicts preserve insertion order). -/
abbrev StoreMap := List (String × AggregatedStats)

/-- Model of `storage[time_key] = AggregatedStats()` on a missing key followed
by in-place mutation of `storage[time_key]` (lines 533-536): a missing key is
appended at the end (dict insertion order), an existing entry is updated in
place. -/
def upsert (m : StoreMap) (k : String) (f : AggregatedStats → AggregatedStats) : StoreMap :=
  match m with
  | [] => [(k, f emptyStats)]
  | (k', v) :: rest => if k' = k then (k', f v) :: rest else (k', v) :: upsert rest k f

/-- The keys of a store mapping, in dict (insertion) order. -/
def keysOf (m : StoreMap) : List String := m.map Prod.fst

/-- Dict lookup `storage[key]`, `none` when absent. -/
def lookupKey : StoreMap → String → Option AggregatedStats
  | [], _ => none
  | (k', v) :: rest, k => if k' = k then some v else lookupKey rest k

/-- Model of `TestResult` restricted to the fields `_update_stats` reads:
timestamp, success flag and optional RTT. -/
structure TestResult where
  timestamp : DateTime
  success : Bool
  rtt_ms : Option ℚ
deriving DecidableEq, Repr

/-- The four-field bucket update of `_update_stats` (lines 537-544): always
increment `sent`; on success increment `received` and `success_count` and
append the RTT when present; on failure increment `fail_count`. -/
def applyResult (r : TestResult) (s : AggregatedStats) : AggregatedStats :=
  let s1 := { s with sent := s.sent + 1 }
  if r.success then
    let s2 := { s1 with received := s1.received + 1, success_count := s1.success_count + 1 }
    match r.rtt_ms with
    | some v => { s2 with rtts := s2.rtts ++ [v] }
    | none => s2
  else { s1 with fail_count := s1.fail_count + 1 }

/-- The three per-resolution mappings `{'second': {}, 'minute': {}, 'hour': {}}`
kept per host (line 411). -/
structure Store3 where
  second : StoreMap
  minute : StoreMap
  hour : StoreMap
deriving DecidableEq, Repr

/-- The empty per-host store created at startup. -/
def emptyStore3 : Store3 := ⟨[], [], []⟩

/-- Model of `NetworkMonitor._update_stats` (lines 529-544) for one host store:
derive the three time-keys from the result's timestamp and apply the same
bucket update at each resolution. -/
def updateStats (d : Store3) (r : TestResult) : Store3 :=
  { second := upsert d.second (fmtSecond r.timestamp) (applyResult r),
    minute := upsert d.minute (fmtMinute r.timestamp) (applyResult r),
    hour := upsert d.hour (fmtHour r.timestamp) (applyResult r) }

/-- `self.host_data`: hosts (in configuration order) with their stores. -/
abbrev HostData := List (String × Store3)

/-- The initial `host_data` built in `__init__` (lines 409-411). -/
def initHostData (hosts : List String) : HostData := hosts.map fun h => (h, emptyStore3)

/-- Ingest one result for a named host: `self.host_data[host.name]` raises
(`none`) on an unregistered host, otherwise that host's store is updated. -/
def updateHost : HostData → String → TestResult → Option HostData
  | [], _, _ => none
  | (h, st) :: rest, hostName, r =>
    if h = hostName then some ((h, updateStats st r) :: rest)
    else (updateHost rest hostName r).map fun rest2 => (h, st) :: rest2

/-- Run the probe loop's ingest path over a sequence of (host, result) pairs. -/
def runMonitor (init : HostData) (rs : List (String × TestResult)) : Option HostData :=
  rs.foldlM (fun hd p => updateHost hd p.1 p.2) init

/-- Kernel-computable character-list comparison realising Python's `<=` on
strings (lexicographic by code point). -/
def charsLe : List Char → List Char → Bool
  | [], _ => true
  | _ :: _, [] => false
  | c :: cs, d :: ds => if c = d then charsLe cs ds else decide (c < d)

/-- Kernel-computable string comparison; proved below to agree with `≤`. -/
def strLe (s t : String) : Bool := charsLe s.data t.data

/-- Model of Python `sorted` on key strings: a stable sort by the lexicographic
string order. -/
def sortStrings (l : List String) : List String :=
  l.insertionSort fun a b => strLe a b = true

/-- One element of the `bad_seconds` list built by `_detect_outages`
(line 501): the dict `{'time', 'sent', 'received', 'loss_percent'}`. -/
structure BadSec where
  time : String
  sent : Nat
  received : Nat
  loss_percent : ℚ
deriving DecidableEq, Repr

/-- Loop body of the qualifying pass (lines 499-501): look the key up and keep
it when `sent > 0 and packet_loss > threshold`, recording the dict
`{'time', 'sent', 'received', 'loss_percent'}`. -/
def qualifies (sd : StoreMap) (threshold : ℚ) (k : String) : Option BadSec :=
  match lookupKey sd k with
  | some s =>
    if 0 < s.sent ∧ threshold < s.packet_loss then
      some ⟨k, s.sent, s.received, s.packet_loss * 100⟩
    else none
  | none => none

/-- The qualifying pass of `_detect_outages` (lines 497-501): walk the
second-resolution keys in sorted order and keep the qualifying ones. -/
def badSeconds (sd : StoreMap) (threshold : ℚ) : List BadSec :=
  (sortStrings (keysOf sd)).filterMap (qualifies sd threshold)

/-- A closed outage episode as emitted by `_detect_outages` (`host`, `start`,
`end`, merged `sent`/`received`, `duration`, `loss_percent`); the source's
`end` field is called `stop` because `end` is a Lean keyword. -/
structure OutageEpisode where
  host : String
  start : String
  stop : String
  sent : Nat
  received : Nat
  duration : Nat
  loss_percent : ℚ
deriving DecidableEq, Repr

/-- The in-progress `current_outage` dict (still carrying its `seconds` list). -/
structure CurOutage where
  host : String
  start : String
  stop : String
  sent : Nat
  received : Nat
  seconds : List BadSec
deriving DecidableEq, Repr

/-- The aggregate loss formula of lines 518 and 524:
`(sent - received) / sent * 100 if sent > 0 else 0`. -/
def lossFormula (sent received : Nat) : ℚ :=
  if 0 < sent then ((sent : ℚ) - (received : ℚ)) / (sent : ℚ) * 100 else 0

/-- Closing an episode (lines 517-519 / 523-525): `duration` is the number of
merged seconds and `loss_percent` the aggregate loss; the `seconds` list is
dropped. -/
def closeOutage (cur : CurOutage) : OutageEpisode :=
  ⟨cur.host, cur.start, cur.stop, cur.sent, cur.received, cur.seconds.length,
    lossFormula cur.sent cur.received⟩

/-- Opening a fresh `current_outage` from one bad second (lines 508, 521). -/
def newOutage (host : String) (sec : BadSec) : CurOutage :=
  ⟨host, sec.time, sec.time, sec.sent, sec.received, [sec]⟩

/-- One iteration of the merging loop of `_detect_outages` (lines 505-521):
parse the bad second's key (a raise is `none`), then either open, extend
(gap of at most one second) or close-and-reopen the current episode. -/
def stepOutage (host : String) (acc : List OutageEpisode × Option CurOutage)
    (sec : BadSec) : Option (List OutageEpisode × Option CurOutage) :=
  match parseKey sec.time with
  | none => none
  | some secTime =>
    match acc.2 with
    | none => some (acc.1, some (newOutage host sec))
    | some cur =>
      match parseKey cur.stop with
      | none => none
      | some lastTime =>
        if (toSec secTime : ℤ) - (toSec lastTime : ℤ) ≤ 1 then
          some (acc.1, some { cur with
            stop := sec.time
            sent := cur.sent + sec.sent
            received := cur.received + sec.received
            seconds := cur.seconds ++ [sec] })
        else
          some (acc.1 ++ [closeOutage cur], some (newOutage host sec))

/-- The per-host body of `_detect_outages` (lines 496-526): no qualifying
second yields no episodes (`continue`); otherwise the fold over `bad_seconds`
runs and the trailing open episode is closed. -/
def detectHost (host : String) (sd : StoreMap) (threshold : ℚ) :
    Option (List OutageEpisode) :=
  let bad := badSeconds sd threshold
  if bad.isEmpty then some []
  else
    match bad.foldlM (stepOutage host) ([], none) with
    | none => none
    | some (eps, none) => some eps
    | some (eps, some cur) => some (eps ++ [closeOutage cur])

/-- The final `sorted(all_outages, key=lambda x: x['start'], reverse=True)`
(line 527): a stable sort, most recent `start` first. -/
def sortOutages (l : List OutageEpisode) : List OutageEpisode :=
  l.insertionSort fun a b => strLe b.start a.start = true

/-- Model of `NetworkMonitor._detect_outages` (lines 493-527): collect each
host's episodes in host order, then sort them most-recent-first by `start`. -/
def detectOutages (hd : HostData) (threshold : ℚ) : Option (List OutageEpisode) :=
  match hd.mapM (fun p => detectHost p.1 p.2.second threshold) with
  | none => none
  | some ls => some (sortOutages ls.flatten)

/-- State-passing wrapper for `_detect_outages`: the scanner only ever reads
the bucket store, so the state it returns is the state it was given. -/
def detectOutagesSt (hd : HostData) (threshold : ℚ) :
    Option (List OutageEpisode) × HostData :=
  (detectOutages hd threshold, hd)

/-- Model of the second-map eviction in `_cleanup_old_data` (lines 571-576):
when the key count exceeds `maxSeconds`, the oldest `count - maxSeconds` keys
in sorted order are deleted (`del` keeps the remaining entries in order). -/
def cleanupSecond (sd : StoreMap) (maxSeconds : Nat) : StoreMap :=
  if maxSeconds < sd.length then
    let doomed := (sortStrings (keysOf sd)).take (sd.length - maxSeconds)
    sd.filter fun kv => !(doomed.contains kv.1)
  else sd

/-- Model of `NetworkMonitor._cleanup_old_data` (lines 571-576): evict from
every host's second-resolution map only; minute and hour maps are untouched. -/
def cleanupOldData (hd : HostData) (maxSeconds : Nat) : HostData :=
  hd.map fun p => (p.1, { p.2 with second := cleanupSecond p.2.second maxSeconds })

/-- Decimal digit characters of a natural number, as produced by Python
`str(n)` for a nonnegative int. -/
def natChars (n : Nat) : List Char :=
  if n = 0 then ['0'] else (Nat.digits 10 n).reverse.map Nat.digitChar

/-- Python `str(n)` for a nonnegative int. -/
def natStr (n : Nat) : String := ⟨natChars n⟩

/-- Accumulating decimal parse of a digit sequence; fails on a non-digit. -/
def parseNatAux : List Char → Nat → Option Nat
  | [], acc => some acc
  | c :: cs, acc =>
    match charDigit c with
    | some d => parseNatAux cs (acc * 10 + d)
    | none => none

/-- Python `int(s)` for an unsigned decimal string, `none` on garbage. -/
def parseNat (s : String) : Option Nat :=
  match s.data with
  | [] => none
  | cs => parseNatAux cs 0

/-- Round-half-to-even of a rational, the rounding used by Python's fixed
format `f'{x:.2f}'` (applied here to `x * 100`). -/
def roundHalfEven (q : ℚ) : ℤ :=
  if Int.fract q = 1 / 2 then (if Even ⌊q⌋ then ⌊q⌋ else ⌊q⌋ + 1) else round q

/-- Model of the Python fixed-point format `f'{x:.2f}'`: round `x` to two
decimals and print sign, integer digits, a dot and exactly two fraction
digits. -/
def fmt2 (q : ℚ) : String :=
  let n : ℤ := roundHalfEven (q * 100)
  let a : Nat := n.natAbs
  ⟨(if n < 0 then ['-'] else []) ++ natChars (a / 100) ++ '.' :: pad2 (a % 100)⟩

/-- Parse of the unsigned part of a two-decimal fixed-point string. -/
def parseFixed2Chars (cs : List Char) : Option ℚ :=
  match cs.reverse with
  | c2 :: c1 :: dot :: rest =>
    if dot = '.' then
      match parseNat ⟨rest.reverse⟩, charDigit c1, charDigit c2 with
      | some i, some d1, some d2 => some (((i * 100 + d1 * 10 + d2 : Nat) : ℚ) / 100)
      | _, _, _ => none
    else none
  | _ => none

/-- Python `float(s)` restricted to the two-decimal fixed-point strings the
CSV writer emits. -/
def parseFixed2 (s : String) : Option ℚ :=
  match s.data with
  | '-' :: cs => (parseFixed2Chars cs).map fun q => -q
  | cs => parseFixed2Chars cs

/-- The header row written by `DataExporter.to_csv` (line 174). -/
def csvHeader : List String :=
  ["Time", "Sent", "Received", "Avg RTT (ms)", "Success", "Failed", "Packet Loss %"]

/-- The data rows written by `DataExporter.to_csv` (lines 175-177): one row per
key in sorted order, with `avg_rtt` and `packet_loss * 100` formatted to two
decimals. -/
def csvRows (data : StoreMap) : List (List String) :=
  (sortStrings (keysOf data)).filterMap fun k =>
    (lookupKey data k).map fun s =>
      [k, natStr s.sent, natStr s.received, fmt2 s.avg_rtt,
        natStr s.success_count, natStr s.fail_count, fmt2 (s.packet_loss * 100)]

/-- Model of `DataExporter.to_csv` (lines 170-177): the full CSV cell grid. -/
def toCsv (data : StoreMap) : List (List String) := csvHeader :: csvRows data

/-- Re-parse of one CSV data row: recover the time key and the `Sent`,
`Received` and `Avg RTT (ms)` cells. -/
def parseCsvRow (row : List String) : Option (String × Nat × Nat × ℚ) :=
  match row with
  | [k, sentS, recvS, avgS, _, _, _] =>
    match parseNat sentS, parseNat recvS, parseFixed2 avgS with
    | some sent, some recv, some avg => some (k, sent, recv, avg)
    | _, _, _ => none
  | _ => none

/-- One value of the JSON object written by `DataExporter.to_json`: the
`to_dict()` payload of a bucket (lines 72-80).  JSON numbers are modelled as
the exact rationals they denote (Python's `repr` of a float round-trips). -/
structure JsonRecord where
  sent : Nat
  received : Nat
  avg_rtt : ℚ
  success_count : Nat
  fail_count : Nat
  packet_loss : ℚ
deriving DecidableEq, Repr

/-- Model of `DataExporter.to_json` (lines 179-183): the key-to-record object,
in dict order. -/
def toJson (data : StoreMap) : List (String × JsonRecord) :=
  data.map fun kv =>
    (kv.1, ⟨kv.2.sent, kv.2.received, kv.2.avg_rtt, kv.2.success_count,
      kv.2.fail_count, kv.2.packet_loss⟩)

/-- Lookup in a parsed JSON object. -/
def jsonLookup : List (String × JsonRecord) → String → Option JsonRecord
  | [], _ => none
  | (k', v) :: rest, k => if k' = k then some v else jsonLookup rest k

/-! ### The lexicographic string order -/

theorem lex_cons_cons {α : Type} {r : α → α → Prop} {a b : α} {l1 l2 : List α} :
    List.Lex r (a :: l1) (b :: l2) ↔ r a b ∨ (a = b ∧ List.Lex r l1 l2) := by
  constructor
  · intro h
    cases h with
    | cons h => exact Or.inr ⟨rfl, h⟩
    | rel h => exact Or.inl h
  · rintro (h | ⟨rfl, h⟩)
    · exact List.Lex.rel h
    · exact List.Lex.cons h

theorem lex_cons_same {c : Char} {l1 l2 : List Char} :
    List.Lex (· < ·) (c :: l1) (c :: l2) ↔ List.Lex (· < ·) l1 l2 := by
  rw [lex_cons_cons]
  simp [lt_irrefl]

theorem charsLe_iff (cs ds : List Char) :
    charsLe cs ds = true ↔ ¬ List.Lex (· < ·) ds cs := by
  induction cs generalizing ds with
  | nil =>
    cases ds <;> simp [charsLe]
  | cons c cs ih =>
    cases ds with
    | nil => simp [charsLe, List.Lex.nil]
    | cons d ds =>
      rw [charsLe, lex_cons_cons]
      by_cases hcd : c = d
      · subst hcd
        simp [ih, lt_irrefl]
      · simp only [if_neg hcd, decide_eq_true_eq]
        constructor
        · intro h
          push_neg
          refine ⟨le_of_lt h, fun hdc => absurd hdc.symm hcd⟩
        · intro h
          push_neg at h
          exact lt_of_le_of_ne h.1 hcd

theorem string_lt_iff_lex (s t : String) : s < t ↔ List.Lex (· < ·) s.data t.data :=
  String.lt_iff_toList_lt

theorem strLe_iff (s t : String) : strLe s t = true ↔ s ≤ t := by
  rw [strLe, charsLe_iff, ← string_lt_iff_lex, not_lt]

instance : IsTrans String fun a b => strLe a b = true :=
  ⟨fun a b c hab hbc => (strLe_iff a c).mpr (le_trans ((strLe_iff a b).mp hab) ((strLe_iff b c).mp hbc))⟩

instance : IsTotal String fun a b => strLe a b = true :=
  ⟨fun a b => by
    rcases le_total a b with h | h
    · exact Or.inl ((strLe_iff a b).mpr h)
    · exact Or.inr ((strLe_iff b a).mpr h)⟩

theorem sortStrings_perm (l : List String) : List.Perm (sortStrings l) l :=
  List.perm_insertionSort _ l

theorem sortStrings_mem {l : List String} {k : String} : k ∈ sortStrings l ↔ k ∈ l :=
  (sortStrings_perm l).mem_iff

theorem sortStrings_length (l : List String) : (sortStrings l).length = l.length :=
  (sortStrings_perm l).length_eq

theorem sortStrings_sorted (l : List String) :
    (sortStrings l).Pairwise (· ≤ ·) :=
  (List.sorted_insertionSort _ l).imp fun h => (strLe_iff _ _).mp h

theorem sortStrings_nodup {l : List String} (h : l.Nodup) : (sortStrings l).Nodup :=
  (sortStrings_perm l).nodup_iff.mpr h

theorem sortStrings_eq_of_sorted {l : List String} (h : l.Pairwise (· ≤ ·)) :
    sortStrings l = l :=
  List.Sorted.insertionSort_eq (List.Pairwise.imp (fun hab => (strLe_iff _ _).mpr hab) h)

/-! ### Time-key formatting: lexicographic order is chronological order -/

theorem digitChar_lt_iff : ∀ x < 10, ∀ y < 10,
    (Nat.digitChar x < Nat.digitChar y ↔ x < y) := by decide

theorem digitChar_eq_iff : ∀ x < 10, ∀ y < 10,
    (Nat.digitChar x = Nat.digitChar y ↔ x = y) := by decide

theorem charDigit_digitChar : ∀ d < 10, charDigit (Nat.digitChar d) = some d := by decide

theorem pad2_append_lex {a b : Nat} (ha : a ≤ 99) (hb : b ≤ 99) (xs ys : List Char) :
    List.Lex (· < ·) (pad2 a ++ xs) (pad2 b ++ ys) ↔
      a < b ∨ (a = b ∧ List.Lex (· < ·) xs ys) := by
  have h1 : a / 10 < 10 := by omega
  have h2 : a % 10 < 10 := by omega
  have h3 : b / 10 < 10 := by omega
  have h4 : b % 10 < 10 := by omega
  simp only [pad2, List.cons_append, List.nil_append, lex_cons_cons]
  rw [digitChar_lt_iff _ h1 _ h3, digitChar_eq_iff _ h1 _ h3,
    digitChar_lt_iff _ h2 _ h4, digitChar_eq_iff _ h2 _ h4]
  by_cases hP : List.Lex (· < ·) xs ys
  · simp only [hP, and_true]
    omega
  · simp only [hP, and_false, or_false]
    omega

theorem pad4_append_lex {a b : Nat} (ha : a ≤ 9999) (hb : b ≤ 9999) (xs ys : List Char) :
    List.Lex (· < ·) (pad4 a ++ xs) (pad4 b ++ ys) ↔
      a < b ∨ (a = b ∧ List.Lex (· < ·) xs ys) := by
  have h1 : a / 1000 < 10 := by omega
  have h2 : a / 100 % 10 < 10 := by omega
  have h3 : a / 10 % 10 < 10 := by omega
  have h4 : a % 10 < 10 := by omega
  have h5 : b / 1000 < 10 := by omega
  have h6 : b / 100 % 10 < 10 := by omega
  have h7 : b / 10 % 10 < 10 := by omega
  have h8 : b % 10 < 10 := by omega
  simp only [pad4, List.cons_append, List.nil_append, lex_cons_cons]
  rw [digitChar_lt_iff _ h1 _ h5, digitChar_eq_iff _ h1 _ h5,
    digitChar_lt_iff _ h2 _ h6, digitChar_eq_iff _ h2 _ h6,
    digitChar_lt_iff _ h3 _ h7, digitChar_eq_iff _ h3 _ h7,
    digitChar_lt_iff _ h4 _ h8, digitChar_eq_iff _ h4 _ h8]
  by_cases hP : List.Lex (· < ·) xs ys
  · simp only [hP, and_true]
    omega
  · simp only [hP, and_false, or_false]
    omega

theorem pad2_lex {a b : Nat} (ha : a ≤ 99) (hb : b ≤ 99) :
    List.Lex (· < ·) (pad2 a) (pad2 b) ↔ a < b := by
  have h := pad2_append_lex ha hb [] []
  simpa using h

/-- Field widths needed for fixed-width formatting (every `Valid` timestamp
satisfies this, with room to spare). -/
def DateTime.Fits (t : DateTime) : Prop :=
  t.year ≤ 9999 ∧ t.month ≤ 99 ∧ t.day ≤ 99 ∧ t.hour ≤ 99 ∧ t.minute ≤ 99 ∧ t.second ≤ 99

instance (t : DateTime) : Decidable t.Fits := by
  unfold DateTime.Fits; infer_instance

theorem daysInMonth_le (y m : Nat) : daysInMonth y m ≤ 31 := by
  unfold daysInMonth
  split_ifs <;> omega

theorem DateTime.Valid.fits {t : DateTime} (h : t.Valid) : t.Fits := by
  obtain ⟨h1, h2, h3, h4, h5, h6, h7, h8, h9⟩ := h
  have hd := daysInMonth_le t.year t.month
  exact ⟨h2, by omega, by omega, by omega, by omega, by omega⟩

theorem fmtSecondList_lex_iff {t1 t2 : DateTime} (h1 : t1.Fits) (h2 : t2.Fits) :
    List.Lex (· < ·) (fmtSecondList t1) (fmtSecondList t2) ↔ t1.lt t2 := by
  obtain ⟨hy1, hmo1, hd1, hh1, hmi1, hs1⟩ := h1
  obtain ⟨hy2, hmo2, hd2, hh2, hmi2, hs2⟩ := h2
  rw [fmtSecondList, fmtSecondList,
    pad4_append_lex hy1 hy2, lex_cons_same,
    pad2_append_lex hmo1 hmo2, lex_cons_same,
    pad2_append_lex hd1 hd2, lex_cons_same,
    pad2_append_lex hh1 hh2, lex_cons_same,
    pad2_append_lex hmi1 hmi2, lex_cons_same,
    pad2_lex hs1 hs2, DateTime.lt]

theorem fmtSecond_lt_iff {t1 t2 : DateTime} (h1 : t1.Fits) (h2 : t2.Fits) :
    fmtSecond t1 < fmtSecond t2 ↔ t1.lt t2 := by
  rw [string_lt_iff_lex]
  exact fmtSecondList_lex_iff h1 h2

theorem fmtSecond_le_iff {t1 t2 : DateTime} (h1 : t1.Fits) (h2 : t2.Fits) :
    fmtSecond t1 ≤ fmtSecond t2 ↔ ¬ t2.lt t1 := by
  rw [← not_lt]
  exact not_congr (fmtSecond_lt_iff h2 h1)

/-- The minute key is the second key of the timestamp truncated to its minute
(the `%S` field replaced by `00`). -/
theorem fmtMinute_eq_trunc (t : DateTime) :
    fmtMinute t = fmtSecond { t with second := 0 } := by
  show String.mk (fmtMinuteList t) = String.mk (fmtSecondList { t with second := 0 })
  simp only [fmtMinuteList, fmtSecondList, pad2, pad4, Nat.zero_div, Nat.zero_mod,
    List.cons_append, List.nil_append, show Nat.digitChar 0 = '0' from rfl]

/-- The hour key is the second key of the timestamp truncated to its hour. -/
theorem fmtHour_eq_trunc (t : DateTime) :
    fmtHour t = fmtSecond { t with minute := 0, second := 0 } := by
  show String.mk (fmtHourList t) = String.mk (fmtSecondList { t with minute := 0, second := 0 })
  simp only [fmtHourList, fmtSecondList, pad2, pad4, Nat.zero_div, Nat.zero_mod,
    List.cons_append, List.nil_append, show Nat.digitChar 0 = '0' from rfl]

theorem DateTime.lt_trichotomy (a b : DateTime) : a.lt b ∨ a = b ∨ b.lt a := by
  cases a; cases b
  simp only [DateTime.lt, DateTime.mk.injEq]
  omega

theorem DateTime.lt_asymm {a b : DateTime} (h : a.lt b) : ¬ b.lt a := by
  cases a; cases b
  simp only [DateTime.lt] at h ⊢
  omega

theorem DateTime.lt_irrefl (a : DateTime) : ¬ a.lt a := by
  cases a
  simp only [DateTime.lt]
  omega

theorem DateTime.lt_trans {a b c : DateTime} (h1 : a.lt b) (h2 : b.lt c) : a.lt c := by
  cases a; cases b; cases c
  simp only [DateTime.lt] at h1 h2 ⊢
  omega

theorem fmtSecond_inj {t1 t2 : DateTime} (h1 : t1.Fits) (h2 : t2.Fits)
    (h : fmtSecond t1 = fmtSecond t2) : t1 = t2 := by
  rcases DateTime.lt_trichotomy t1 t2 with hlt | heq | hgt
  · exact absurd ((fmtSecond_lt_iff h1 h2).mpr hlt) (by rw [h]; exact lt_irrefl _)
  · exact heq
  · exact absurd ((fmtSecond_lt_iff h2 h1).mpr hgt) (by rw [h]; exact lt_irrefl _)

/-! ### `strptime` inverts `strftime` on valid timestamps -/

theorem parseKey_fmtSecond {t : DateTime} (h : t.Valid) : parseKey (fmtSecond t) = some t := by
  have hfits := h.fits
  obtain ⟨hy, hmo, hd, hh, hmi, hs⟩ := hfits
  have hlist : fmtSecondList t =
      [Nat.digitChar (t.year / 1000), Nat.digitChar (t.year / 100 % 10),
        Nat.digitChar (t.year / 10 % 10), Nat.digitChar (t.year % 10), '-',
        Nat.digitChar (t.month / 10), Nat.digitChar (t.month % 10), '-',
        Nat.digitChar (t.day / 10), Nat.digitChar (t.day % 10), ' ',
        Nat.digitChar (t.hour / 10), Nat.digitChar (t.hour % 10), ':',
        Nat.digitChar (t.minute / 10), Nat.digitChar (t.minute % 10), ':',
        Nat.digitChar (t.second / 10), Nat.digitChar (t.second % 10)] := by
    simp [fmtSecondList, pad4, pad2]
  show parseKeyChars (fmtSecondList t) = some t
  rw [hlist, parseKeyChars]
  rw [charDigit_digitChar _ (by omega : t.year / 1000 < 10),
    charDigit_digitChar _ (by omega : t.year / 100 % 10 < 10),
    charDigit_digitChar _ (by omega : t.year / 10 % 10 < 10),
    charDigit_digitChar _ (by omega : t.year % 10 < 10),
    charDigit_digitChar _ (by omega : t.month / 10 < 10),
    charDigit_digitChar _ (by omega : t.month % 10 < 10),
    charDigit_digitChar _ (by omega : t.day / 10 < 10),
    charDigit_digitChar _ (by omega : t.day % 10 < 10),
    charDigit_digitChar _ (by omega : t.hour / 10 < 10),
    charDigit_digitChar _ (by omega : t.hour % 10 < 10),
    charDigit_digitChar _ (by omega : t.minute / 10 < 10),
    charDigit_digitChar _ (by omega : t.minute % 10 < 10),
    charDigit_digitChar _ (by omega : t.second / 10 < 10),
    charDigit_digitChar _ (by omega : t.second % 10 < 10)]
  have hrebuild : (⟨((t.year / 1000 * 10 + t.year / 100 % 10) * 10 + t.year / 10 % 10) * 10 +
      t.year % 10, t.month / 10 * 10 + t.month % 10, t.day / 10 * 10 + t.day % 10,
      t.hour / 10 * 10 + t.hour % 10, t.minute / 10 * 10 + t.minute % 10,
      t.second / 10 * 10 + t.second % 10⟩ : DateTime) = t := by
    cases t
    simp only [DateTime.mk.injEq]
    refine ⟨by omega, by omega, by omega, by omega, by omega, by omega⟩
  simp only [if_pos (by decide : ('-' : Char) = '-' ∧ ('-' : Char) = '-' ∧ (' ' : Char) = ' ' ∧
    (':' : Char) = ':' ∧ (':' : Char) = ':')]
  rw [hrebuild]
  simp [h]

/-! ### Bucket counter invariants along the ingest path -/

/-- The counter invariant of a bucket. -/
def StatsInv (s : AggregatedStats) : Prop :=
  s.received ≤ s.sent ∧ s.sent = s.success_count + s.fail_count ∧
    s.received = s.success_count

theorem statsInv_empty : StatsInv emptyStats := by
  refine ⟨le_refl 0, rfl, rfl⟩

theorem applyResult_counters (r : TestResult) (s : AggregatedStats) :
    (applyResult r s).sent = s.sent + 1 ∧
    (applyResult r s).received = (if r.success then s.received + 1 else s.received) ∧
    (applyResult r s).success_count =
      (if r.success then s.success_count + 1 else s.success_count) ∧
    (applyResult r s).fail_count = (if r.success then s.fail_count else s.fail_count + 1) := by
  unfold applyResult
  cases hsucc : r.success
  · simp
  · cases hr : r.rtt_ms <;> simp

theorem applyResult_rtts (r : TestResult) (s : AggregatedStats) :
    (applyResult r s).rtts =
      (if r.success then (match r.rtt_ms with
        | some v => s.rtts ++ [v]
        | none => s.rtts) else s.rtts) := by
  unfold applyResult
  cases hsucc : r.success
  · simp
  · cases hr : r.rtt_ms <;> simp [hr]

theorem statsInv_apply (r : TestResult) {s : AggregatedStats} (h : StatsInv s) :
    StatsInv (applyResult r s) := by
  obtain ⟨h1, h2, h3⟩ := h
  obtain ⟨hc1, hc2, hc3, hc4⟩ := applyResult_counters r s
  unfold StatsInv
  by_cases hs : r.success = true <;> simp only [hs, if_true, Bool.false_eq_true, if_false] at hc2 hc3 hc4 <;>
    rw [hc1, hc2, hc3, hc4] <;> omega

theorem statsInv_upsert (r : TestResult) (k : String) {m : StoreMap}
    (h : ∀ kv ∈ m, StatsInv kv.2) :
    ∀ kv ∈ upsert m k (applyResult r), StatsInv kv.2 := by
  induction m with
  | nil =>
    intro kv hkv
    simp only [upsert, List.mem_singleton] at hkv
    subst hkv
    exact statsInv_apply r statsInv_empty
  | cons p rest ih =>
    obtain ⟨k', v⟩ := p
    intro kv hkv
    rw [upsert] at hkv
    by_cases hk : k' = k
    · rw [if_pos hk] at hkv
      rcases List.mem_cons.mp hkv with hkv | hkv
      · subst hkv
        exact statsInv_apply r (h (k', v) (List.mem_cons_self _ _))
      · exact h kv (List.mem_cons_of_mem _ hkv)
    · rw [if_neg hk] at hkv
      rcases List.mem_cons.mp hkv with hkv | hkv
      · subst hkv
        exact h (k', v) (List.mem_cons_self _ _)
      · exact ih (fun q hq => h q (List.mem_cons_of_mem _ hq)) kv hkv

/-- The counter invariant for all three resolutions of one host store. -/
def storeInv (st : Store3) : Prop :=
  (∀ kv ∈ st.second, StatsInv kv.2) ∧ (∀ kv ∈ st.minute, StatsInv kv.2) ∧
    (∀ kv ∈ st.hour, StatsInv kv.2)

theorem storeInv_empty : storeInv emptyStore3 := by
  refine ⟨fun kv hkv => absurd hkv (List.not_mem_nil kv),
    fun kv hkv => absurd hkv (List.not_mem_nil kv),
    fun kv hkv => absurd hkv (List.not_mem_nil kv)⟩

theorem storeInv_update {st : Store3} (r : TestResult) (h : storeInv st) :
    storeInv (updateStats st r) :=
  ⟨statsInv_upsert r _ h.1, statsInv_upsert r _ h.2.1, statsInv_upsert r _ h.2.2⟩

theorem hostInv_update {hd hd' : HostData} {hostName : String} {r : TestResult}
    (h : ∀ p ∈ hd, storeInv p.2) (hu : updateHost hd hostName r = some hd') :
    ∀ p ∈ hd', storeInv p.2 := by
  induction hd generalizing hd' with
  | nil => simp [updateHost] at hu
  | cons p rest ih =>
    obtain ⟨hh, hst⟩ := p
    rw [updateHost] at hu
    by_cases heq : hh = hostName
    · rw [if_pos heq] at hu
      injection hu with hu
      subst hu
      intro q hq
      rcases List.mem_cons.mp hq with hq | hq
      · subst hq
        exact storeInv_update r (h (hh, hst) (List.mem_cons_self _ _))
      · exact h q (List.mem_cons_of_mem _ hq)
    · rw [if_neg heq] at hu
      cases hrest : updateHost rest hostName r with
      | none => rw [hrest] at hu; exact Option.noConfusion hu
      | some rest2 =>
        rw [hrest] at hu
        injection hu with hu
        subst hu
        intro q hq
        rcases List.mem_cons.mp hq with hq | hq
        · subst hq
          exact h (hh, hst) (List.mem_cons_self _ _)
        · exact ih (fun w hw => h w (List.mem_cons_of_mem _ hw)) hrest q hq

theorem runMonitor_cons (init : HostData) (p : String × TestResult)
    (rest : List (String × TestResult)) :
    runMonitor init (p :: rest) =
      (updateHost init p.1 p.2).bind fun mid => runMonitor mid rest := by
  rw [runMonitor, List.foldlM_cons]
  rfl

theorem runMonitor_inv {init hd' : HostData} {rs : List (String × TestResult)}
    (h : ∀ p ∈ init, storeInv p.2) (hrun : runMonitor init rs = some hd') :
    ∀ p ∈ hd', storeInv p.2 := by
  induction rs generalizing init with
  | nil =>
    have h2 : some init = some hd' := hrun
    injection h2 with h2
    subst h2
    exact h
  | cons pr rest ih =>
    rw [runMonitor_cons] at hrun
    cases hu : updateHost init pr.1 pr.2 with
    | none => rw [hu] at hrun; simp at hrun
    | some mid =>
      rw [hu] at hrun
      simp only [Option.some_bind] at hrun
      exact ih (hostInv_update h hu) hrun

theorem initHostData_inv (hosts : List String) :
    ∀ p ∈ initHostData hosts, storeInv p.2 := by
  intro p hp
  rw [initHostData] at hp
  obtain ⟨h, _, rfl⟩ := List.mem_map.mp hp
  exact storeInv_empty

theorem packet_loss_range {s : AggregatedStats} (h : s.received ≤ s.sent) :
    0 ≤ s.packet_loss ∧ s.packet_loss ≤ 1 ∧ (s.sent = 0 → s.packet_loss = 0) := by
  unfold AggregatedStats.packet_loss
  split
  case isTrue h0 =>
    have hsent : (0 : ℚ) < (s.sent : ℚ) := by exact_mod_cast h0
    have hnum : (0 : ℚ) ≤ (s.sent : ℚ) - (s.received : ℚ) := by
      rw [sub_nonneg]
      exact_mod_cast h
    refine ⟨div_nonneg hnum (le_of_lt hsent), ?_, fun hz => absurd h0 (by omega)⟩
    rw [div_le_one hsent]
    have : (0 : ℚ) ≤ (s.received : ℚ) := by positivity
    linarith
  case isFalse h0 =>
    exact ⟨le_refl 0, by norm_num, fun _ => rfl⟩

/-! ### Lookup and key lemmas for store mappings -/

theorem lookupKey_mem {sd : StoreMap} {k : String} {s : AggregatedStats}
    (h : lookupKey sd k = some s) : (k, s) ∈ sd := by
  induction sd with
  | nil => simp [lookupKey] at h
  | cons p rest ih =>
    obtain ⟨k', v⟩ := p
    rw [lookupKey] at h
    by_cases hk : k' = k
    · rw [if_pos hk] at h
      injection h with h
      subst hk; subst h
      exact List.mem_cons_self _ _
    · rw [if_neg hk] at h
      exact List.mem_cons_of_mem _ (ih h)

theorem mem_lookupKey {sd : StoreMap} (hnd : (keysOf sd).Nodup) {k : String}
    {s : AggregatedStats} (h : (k, s) ∈ sd) : lookupKey sd k = some s := by
  induction sd with
  | nil => simp at h
  | cons p rest ih =>
    obtain ⟨k', v⟩ := p
    rw [keysOf, List.map_cons, List.nodup_cons] at hnd
    rcases List.mem_cons.mp h with h | h
    · injection h with h1 h2
      subst h1; subst h2
      rw [lookupKey, if_pos rfl]
    · rw [lookupKey]
      by_cases hk : k' = k
      · subst hk
        exact absurd (List.mem_map_of_mem Prod.fst h) hnd.1
      · rw [if_neg hk]
        exact ih hnd.2 h

theorem lookupKey_none {sd : StoreMap} {k : String}
    (h : lookupKey sd k = none) : k ∉ keysOf sd := by
  induction sd with
  | nil => simp [keysOf]
  | cons p rest ih =>
    obtain ⟨k', v⟩ := p
    rw [lookupKey] at h
    by_cases hk : k' = k
    · rw [if_pos hk] at h; exact Option.noConfusion h
    · rw [if_neg hk] at h
      rw [keysOf, List.map_cons]
      intro hmem
      rcases List.mem_cons.mp hmem with hmem | hmem
      · exact hk hmem.symm
      · exact ih h hmem

theorem lookupKey_some_of_mem_keys {sd : StoreMap} {k : String}
    (h : k ∈ keysOf sd) : ∃ s, lookupKey sd k = some s := by
  cases hl : lookupKey sd k with
  | none => exact absurd h (lookupKey_none hl)
  | some s => exact ⟨s, rfl⟩

/-! ### The qualifying pass of the outage scanner -/

theorem mem_badSeconds_iff {sd : StoreMap} {threshold : ℚ} {k : String} :
    (∃ b ∈ badSeconds sd threshold, b.time = k) ↔
      ∃ s, lookupKey sd k = some s ∧ 0 < s.sent ∧ threshold < s.packet_loss := by
  constructor
  · rintro ⟨b, hb, rfl⟩
    rw [badSeconds] at hb
    obtain ⟨k', hk', hf⟩ := List.mem_filterMap.mp hb
    rw [qualifies] at hf
    cases hl : lookupKey sd k' with
    | none => rw [hl] at hf; exact Option.noConfusion hf
    | some s =>
      rw [hl] at hf
      have hf2 : (if 0 < s.sent ∧ threshold < s.packet_loss then
          some (⟨k', s.sent, s.received, s.packet_loss * 100⟩ : BadSec) else none) = some b := hf
      by_cases hc : 0 < s.sent ∧ threshold < s.packet_loss
      · rw [if_pos hc] at hf2
        injection hf2 with hf2
        subst hf2
        exact ⟨s, hl, hc⟩
      · rw [if_neg hc] at hf2
        exact Option.noConfusion hf2
  · rintro ⟨s, hl, hc⟩
    refine ⟨⟨k, s.sent, s.received, s.packet_loss * 100⟩, ?_, rfl⟩
    rw [badSeconds]
    refine List.mem_filterMap.mpr ⟨k, ?_, ?_⟩
    · exact sortStrings_mem.mpr (List.mem_map_of_mem Prod.fst (lookupKey_mem hl))
    · rw [qualifies, hl]
      have hred : (if 0 < s.sent ∧ threshold < s.packet_loss then
          some (⟨k, s.sent, s.received, s.packet_loss * 100⟩ : BadSec) else none) =
          some ⟨k, s.sent, s.received, s.packet_loss * 100⟩ := if_pos hc
      exact hred

theorem badSeconds_time_mem_keys {sd : StoreMap} {threshold : ℚ} {b : BadSec}
    (hb : b ∈ badSeconds sd threshold) : b.time ∈ keysOf sd := by
  rw [badSeconds] at hb
  obtain ⟨k', hk', hf⟩ := List.mem_filterMap.mp hb
  rw [qualifies] at hf
  cases hl : lookupKey sd k' with
  | none => rw [hl] at hf; exact Option.noConfusion hf
  | some s =>
    rw [hl] at hf
    have hf2 : (if 0 < s.sent ∧ threshold < s.packet_loss then
        some (⟨k', s.sent, s.received, s.packet_loss * 100⟩ : BadSec) else none) = some b := hf
    by_cases hc : 0 < s.sent ∧ threshold < s.packet_loss
    · rw [if_pos hc] at hf2
      injection hf2 with hf2
      subst hf2
      exact sortStrings_mem.mp hk'
    · rw [if_neg hc] at hf2
      exact Option.noConfusion hf2

/-! ### The merging fold of the outage scanner -/

instance : Inhabited BadSec := ⟨⟨"", 0, 0, 0⟩⟩

/-- The episode a group of consecutively merged bad seconds closes into. -/
def episodeOf (host : String) (g : List BadSec) : OutageEpisode :=
  ⟨host, (g.head?.getD default).time, (g.getLast?.getD default).time,
    (g.map BadSec.sent).sum, (g.map BadSec.received).sum, g.length,
    lossFormula (g.map BadSec.sent).sum (g.map BadSec.received).sum⟩

/-- The invariant tying an in-progress `current_outage` to its `seconds`
list. -/
def curInv (host : String) (cur : CurOutage) : Prop :=
  cur.seconds ≠ [] ∧ cur.host = host ∧
    cur.start = (cur.seconds.head?.getD default).time ∧
    cur.stop = (cur.seconds.getLast?.getD default).time ∧
    cur.sent = (cur.seconds.map BadSec.sent).sum ∧
    cur.received = (cur.seconds.map BadSec.received).sum

theorem closeOutage_eq {host : String} {cur : CurOutage} (h : curInv host cur) :
    closeOutage cur = episodeOf host cur.seconds := by
  obtain ⟨hne, hh, hs, hst, hsent, hrecv⟩ := h
  unfold closeOutage episodeOf
  rw [hh, hs, hst, hsent, hrecv]

theorem curInv_new (host : String) (sec : BadSec) : curInv host (newOutage host sec) := by
  refine ⟨by simp [newOutage], rfl, by simp [newOutage], by simp [newOutage],
    by simp [newOutage], by simp [newOutage]⟩

theorem curInv_extend {host : String} {cur : CurOutage} (h : curInv host cur) (sec : BadSec) :
    curInv host { cur with
      stop := sec.time
      sent := cur.sent + sec.sent
      received := cur.received + sec.received
      seconds := cur.seconds ++ [sec] } := by
  obtain ⟨hne, hh, hs, hst, hsent, hrecv⟩ := h
  refine ⟨by simp, hh, ?_, ?_, ?_, ?_⟩
  · cases hcs : cur.seconds with
    | nil => exact absurd hcs hne
    | cons c cs => rw [hs, hcs]; simp
  · simp
  · simp [hsent]
  · simp [hrecv]

theorem foldOutage_groups (host : String) (bad : List BadSec) :
    ∀ (eps : List OutageEpisode) (cur : CurOutage)
      (result : List OutageEpisode × Option CurOutage),
      curInv host cur →
      bad.foldlM (stepOutage host) (eps, some cur) = some result →
      ∃ (groups : List (List BadSec)) (cur2 : CurOutage),
        (∀ g ∈ groups, g ≠ []) ∧
        result = (eps ++ groups.map (episodeOf host), some cur2) ∧
        curInv host cur2 ∧
        groups.flatten ++ cur2.seconds = cur.seconds ++ bad := by
  induction bad with
  | nil =>
    intro eps cur result hinv hfold
    have h2 : some (eps, some cur) = some result := hfold
    injection h2 with h2
    exact ⟨[], cur, by simp, by simp [← h2], hinv, by simp⟩
  | cons sec rest ih =>
    intro eps cur result hinv hfold
    rw [List.foldlM_cons] at hfold
    cases hp : parseKey sec.time with
    | none => rw [stepOutage, hp] at hfold; exact Option.noConfusion hfold
    | some st =>
      cases hq : parseKey cur.stop with
      | none =>
        rw [stepOutage, hp] at hfold
        simp only [hq] at hfold
        exact Option.noConfusion hfold
      | some lastT =>
        by_cases hgap : (toSec st : ℤ) - (toSec lastT : ℤ) ≤ 1
        · have hstep : stepOutage host (eps, some cur) sec = some (eps, some { cur with
              stop := sec.time
              sent := cur.sent + sec.sent
              received := cur.received + sec.received
              seconds := cur.seconds ++ [sec] }) := by
            rw [stepOutage, hp]
            simp only [hq, if_pos hgap]
          rw [hstep] at hfold
          simp only [Option.bind_eq_bind, Option.some_bind] at hfold
          obtain ⟨groups, cur2, hne, hres, hinv2, hflat⟩ :=
            ih eps _ result (curInv_extend hinv sec) hfold
          refine ⟨groups, cur2, hne, hres, hinv2, ?_⟩
          rw [hflat]
          simp
        · have hstep : stepOutage host (eps, some cur) sec =
              some (eps ++ [closeOutage cur], some (newOutage host sec)) := by
            rw [stepOutage, hp]
            simp only [hq, if_neg hgap]
          rw [hstep] at hfold
          simp only [Option.bind_eq_bind, Option.some_bind] at hfold
          obtain ⟨groups, cur2, hne, hres, hinv2, hflat⟩ :=
            ih (eps ++ [closeOutage cur]) _ result (curInv_new host sec) hfold
          refine ⟨cur.seconds :: groups, cur2, ?_, ?_, hinv2, ?_⟩
          · intro g hg
            rcases List.mem_cons.mp hg with hg | hg
            · subst hg; exact hinv.1
            · exact hne g hg
          · rw [hres, List.map_cons, ← closeOutage_eq hinv]
            simp
          · rw [List.flatten_cons, List.append_assoc, hflat]
            simp [newOutage]

theorem detectHost_groups {host : String} {sd : StoreMap} {threshold : ℚ}
    {eps : List OutageEpisode} (h : detectHost host sd threshold = some eps) :
    ∃ groups : List (List BadSec), (∀ g ∈ groups, g ≠ []) ∧
      groups.flatten = badSeconds sd threshold ∧
      eps = groups.map (episodeOf host) := by
  rw [detectHost] at h
  cases hbad : badSeconds sd threshold with
  | nil =>
    rw [hbad] at h
    simp only [List.isEmpty_nil, if_true] at h
    injection h with h
    exact ⟨[], by simp, by simp, by simp [← h]⟩
  | cons b rest =>
    rw [hbad] at h
    simp only [List.isEmpty_cons, Bool.false_eq_true, if_false] at h
    rw [List.foldlM_cons] at h
    cases hp : parseKey b.time with
    | none =>
      rw [stepOutage, hp] at h
      exact Option.noConfusion h
    | some t =>
      have hstep : stepOutage host ([], none) b = some ([], some (newOutage host b)) := by
        rw [stepOutage, hp]
      rw [hstep] at h
      simp only [Option.bind_eq_bind, Option.some_bind] at h
      cases hfold : rest.foldlM (stepOutage host) ([], some (newOutage host b)) with
      | none => rw [hfold] at h; exact Option.noConfusion h
      | some result =>
        rw [hfold] at h
        obtain ⟨groups, cur2, hne, hres, hinv2, hflat⟩ :=
          foldOutage_groups host rest [] (newOutage host b) result (curInv_new host b) hfold
        rw [hres] at h
        simp only [List.nil_append] at h
        injection h with h
        refine ⟨groups ++ [cur2.seconds], ?_, ?_, ?_⟩
        · intro g hg
          rcases List.mem_append.mp hg with hg | hg
          · exact hne g hg
          · rw [List.mem_singleton.mp hg]
            exact hinv2.1
        · rw [List.flatten_append, List.flatten_cons, List.flatten_nil, List.append_nil, hflat]
          simp [newOutage]
        · rw [← h, List.map_append, List.map_singleton, ← closeOutage_eq hinv2]

/-! ### Symbolic evaluation of the scanner on small stores -/

theorem qualifies_pos {sd : StoreMap} {threshold : ℚ} {k : String} {s : AggregatedStats}
    (hl : lookupKey sd k = some s) (hc : 0 < s.sent ∧ threshold < s.packet_loss) :
    qualifies sd threshold k = some ⟨k, s.sent, s.received, s.packet_loss * 100⟩ := by
  rw [qualifies, hl]
  exact if_pos hc

theorem badSeconds_one {t1 : DateTime} (h1 : t1.Valid) {s1 : AggregatedStats} {threshold : ℚ}
    (hc1 : 0 < s1.sent ∧ threshold < s1.packet_loss) :
    badSeconds [(fmtSecond t1, s1)] threshold =
      [⟨fmtSecond t1, s1.sent, s1.received, s1.packet_loss * 100⟩] := by
  have hsort : sortStrings (keysOf [(fmtSecond t1, s1)]) = [fmtSecond t1] :=
    sortStrings_eq_of_sorted (List.pairwise_singleton _ _)
  have hq : qualifies [(fmtSecond t1, s1)] threshold (fmtSecond t1) =
      some ⟨fmtSecond t1, s1.sent, s1.received, s1.packet_loss * 100⟩ :=
    qualifies_pos (by rw [lookupKey, if_pos rfl]) hc1
  rw [badSeconds, hsort]
  simp [List.filterMap_cons, hq]

theorem badSeconds_two {t1 t2 : DateTime} (h1 : t1.Valid) (h2 : t2.Valid) (hlt : t1.lt t2)
    {s1 s2 : AggregatedStats} {threshold : ℚ}
    (hc1 : 0 < s1.sent ∧ threshold < s1.packet_loss)
    (hc2 : 0 < s2.sent ∧ threshold < s2.packet_loss) :
    badSeconds [(fmtSecond t1, s1), (fmtSecond t2, s2)] threshold =
      [⟨fmtSecond t1, s1.sent, s1.received, s1.packet_loss * 100⟩,
        ⟨fmtSecond t2, s2.sent, s2.received, s2.packet_loss * 100⟩] := by
  have hklt : fmtSecond t1 < fmtSecond t2 := (fmtSecond_lt_iff h1.fits h2.fits).mpr hlt
  have hne : fmtSecond t1 ≠ fmtSecond t2 := ne_of_lt hklt
  have hsort : sortStrings (keysOf [(fmtSecond t1, s1), (fmtSecond t2, s2)]) =
      [fmtSecond t1, fmtSecond t2] := by
    refine sortStrings_eq_of_sorted ?_
    exact List.pairwise_pair.mpr (le_of_lt hklt)
  have hq1 : qualifies [(fmtSecond t1, s1), (fmtSecond t2, s2)] threshold (fmtSecond t1) =
      some ⟨fmtSecond t1, s1.sent, s1.received, s1.packet_loss * 100⟩ :=
    qualifies_pos (by rw [lookupKey, if_pos rfl]) hc1
  have hq2 : qualifies [(fmtSecond t1, s1), (fmtSecond t2, s2)] threshold (fmtSecond t2) =
      some ⟨fmtSecond t2, s2.sent, s2.received, s2.packet_loss * 100⟩ :=
    qualifies_pos (by rw [lookupKey, if_neg hne, lookupKey, if_pos rfl]) hc2
  rw [badSeconds, hsort]
  simp [List.filterMap_cons, hq1, hq2]

theorem detectHost_zero {host : String} {sd : StoreMap} {threshold : ℚ}
    (h : badSeconds sd threshold = []) : detectHost host sd threshold = some [] := by
  rw [detectHost, h]
  rfl

theorem detectHost_single {host : String} {sd : StoreMap} {threshold : ℚ} {b : BadSec}
    {t : DateTime} (hbad : badSeconds sd threshold = [b]) (hp : parseKey b.time = some t) :
    detectHost host sd threshold =
      some [⟨host, b.time, b.time, b.sent, b.received, 1, lossFormula b.sent b.received⟩] := by
  rw [detectHost, hbad]
  simp only [List.isEmpty_cons, Bool.false_eq_true, if_false]
  have hrun : ([b].foldlM (stepOutage host) ([], none) :
      Option (List OutageEpisode × Option CurOutage)) =
      some ([], some (newOutage host b)) := by
    rw [List.foldlM_cons, stepOutage, hp]
    rfl
  rw [hrun]
  rfl

theorem detectHost_pair {host : String} {sd : StoreMap} {threshold : ℚ} {b1 b2 : BadSec}
    {t1 t2 : DateTime} (hbad : badSeconds sd threshold = [b1, b2])
    (hp1 : parseKey b1.time = some t1) (hp2 : parseKey b2.time = some t2) :
    detectHost host sd threshold =
      if (toSec t2 : ℤ) - (toSec t1 : ℤ) ≤ 1 then
        some [⟨host, b1.time, b2.time, b1.sent + b2.sent, b1.received + b2.received, 2,
          lossFormula (b1.sent + b2.sent) (b1.received + b2.received)⟩]
      else
        some [⟨host, b1.time, b1.time, b1.sent, b1.received, 1,
            lossFormula b1.sent b1.received⟩,
          ⟨host, b2.time, b2.time, b2.sent, b2.received, 1,
            lossFormula b2.sent b2.received⟩] := by
  rw [detectHost, hbad]
  simp only [List.isEmpty_cons, Bool.false_eq_true, if_false]
  rw [List.foldlM_cons]
  have h1 : stepOutage host ([], none) b1 = some ([], some (newOutage host b1)) := by
    rw [stepOutage, hp1]
  rw [h1]
  simp only [Option.bind_eq_bind, Option.some_bind]
  rw [List.foldlM_cons]
  by_cases hgap : (toSec t2 : ℤ) - (toSec t1 : ℤ) ≤ 1
  · have h2 : stepOutage host ([], some (newOutage host b1)) b2 =
        some ([], some ⟨host, b1.time, b2.time, b1.sent + b2.sent,
          b1.received + b2.received, [b1, b2]⟩) := by
      rw [stepOutage, hp2]
      simp only [newOutage, hp1, if_pos hgap]
      rfl
    rw [h2]
    simp only [Option.bind_eq_bind, Option.some_bind, List.foldlM_nil, if_pos hgap]
    rfl
  · have h2 : stepOutage host ([], some (newOutage host b1)) b2 =
        some ([closeOutage (newOutage host b1)], some (newOutage host b2)) := by
      rw [stepOutage, hp2]
      simp only [newOutage, hp1, if_neg hgap]
      rfl
    rw [h2]
    simp only [Option.bind_eq_bind, Option.some_bind, List.foldlM_nil, if_neg hgap]
    rfl

/-! ### Cross-resolution consistency of the three parallel bucket folds -/

/-- Minute key of a second-resolution key (derived by re-parsing). -/
def minuteKeyOf (k : String) : Option String := (parseKey k).map fmtMinute

/-- Hour key of a minute-resolution key (derived by re-parsing). -/
def hourKeyOf (k : String) : Option String := (parseKey k).map fmtHour

/-- The RTT samples one ingest appends to each of its three buckets. -/
def rttDelta (r : TestResult) : List ℚ :=
  if r.success then (match r.rtt_ms with | some v => [v] | none => []) else []

/-- Sum of a counter over the fine-resolution buckets that a coarse key
covers. -/
def sumBy (m : StoreMap) (c : String → Option String) (k2 : String)
    (F : AggregatedStats → Nat) : Nat :=
  ((m.filter fun kv => decide (c kv.1 = some k2)).map fun kv => F kv.2).sum

/-- Concatenation of the RTT lists of the fine-resolution buckets that a
coarse key covers, in store (insertion) order. -/
def joinBy (m : StoreMap) (c : String → Option String) (k2 : String) : List ℚ :=
  ((m.filter fun kv => decide (c kv.1 = some k2)).map fun kv => kv.2.rtts).flatten

theorem applyResult_sent (r : TestResult) (s : AggregatedStats) :
    (applyResult r s).sent = s.sent + 1 :=
  (applyResult_counters r s).1

theorem applyResult_received (r : TestResult) (s : AggregatedStats) :
    (applyResult r s).received = s.received + (if r.success = true then 1 else 0) := by
  rw [(applyResult_counters r s).2.1]
  by_cases h : r.success = true <;> simp [h]

theorem applyResult_success (r : TestResult) (s : AggregatedStats) :
    (applyResult r s).success_count =
      s.success_count + (if r.success = true then 1 else 0) := by
  rw [(applyResult_counters r s).2.2.1]
  by_cases h : r.success = true <;> simp [h]

theorem applyResult_fail (r : TestResult) (s : AggregatedStats) :
    (applyResult r s).fail_count = s.fail_count + (if r.success = true then 0 else 1) := by
  rw [(applyResult_counters r s).2.2.2]
  by_cases h : r.success = true <;> simp [h]

theorem applyResult_rtts_delta (r : TestResult) (s : AggregatedStats) :
    (applyResult r s).rtts = s.rtts ++ rttDelta r := by
  rw [applyResult_rtts, rttDelta]
  by_cases h : r.success = true
  · rw [if_pos h, if_pos h]
    cases hr : r.rtt_ms
    · simp
    · rfl
  · rw [if_neg h, if_neg h]
    simp

theorem lookupKey_upsert (m : StoreMap) (k : String) (f : AggregatedStats → AggregatedStats)
    (k' : String) :
    lookupKey (upsert m k f) k' =
      if k' = k then some (f ((lookupKey m k).getD emptyStats)) else lookupKey m k' := by
  induction m with
  | nil =>
    by_cases h : k' = k
    · subst h
      simp [upsert, lookupKey]
    · simp [upsert, lookupKey, h, Ne.symm h]
  | cons kv rest ih =>
    obtain ⟨k0, v⟩ := kv
    by_cases h0 : k0 = k
    · subst h0
      by_cases h' : k0 = k'
      · subst h'
        simp [upsert, lookupKey]
      · simp [upsert, lookupKey, h', Ne.symm h']
    · by_cases h' : k0 = k'
      · subst h'
        simp [upsert, lookupKey, h0, Ne.symm h0]
      · simp [upsert, lookupKey, h0, h', ih]

theorem sumBy_upsert (c : String → Option String) (k2 : String)
    (F : AggregatedStats → Nat) (r : TestResult) (d : Nat)
    (hF : ∀ s, F (applyResult r s) = F s + d) (hF0 : F emptyStats = 0) :
    ∀ (m1 : StoreMap) (k1 : String),
      sumBy (upsert m1 k1 (applyResult r)) c k2 F =
        sumBy m1 c k2 F + (if c k1 = some k2 then d else 0) := by
  intro m1
  induction m1 with
  | nil =>
    intro k1
    by_cases hc : c k1 = some k2
    · rw [if_pos hc]
      simp [upsert, sumBy, List.filter_cons, hc, hF, hF0]
    · rw [if_neg hc]
      simp [upsert, sumBy, List.filter_cons, hc]
  | cons kv rest ih =>
    intro k1
    obtain ⟨k0, v⟩ := kv
    rw [upsert]
    by_cases h0 : k0 = k1
    · subst h0
      by_cases hc : c k0 = some k2
      · rw [if_pos rfl]
        simp [sumBy, List.filter_cons, hc, hF]
        omega
      · rw [if_pos rfl]
        simp [sumBy, List.filter_cons, hc]
    · rw [if_neg h0]
      have hrec := ih k1
      simp only [sumBy] at hrec ⊢
      by_cases hc : c k0 = some k2 <;> by_cases hck : c k1 = some k2 <;>
        simp [List.filter_cons, hc, hck, hrec] <;> omega

theorem fold_counts (F : AggregatedStats → Nat) (dF : TestResult → Nat)
    (hF : ∀ r s, F (applyResult r s) = F s + dF r) (hF0 : F emptyStats = 0)
    (κ1 κ2 : TestResult → String) (c : String → Option String) :
    ∀ (rs : List TestResult) (m1 m2 : StoreMap),
      (∀ r ∈ rs, c (κ1 r) = some (κ2 r)) →
      (∀ k2, F ((lookupKey m2 k2).getD emptyStats) = sumBy m1 c k2 F) →
      ∀ k2, F ((lookupKey (rs.foldl (fun m r => upsert m (κ2 r) (applyResult r)) m2)
          k2).getD emptyStats) =
        sumBy (rs.foldl (fun m r => upsert m (κ1 r) (applyResult r)) m1) c k2 F := by
  intro rs
  induction rs with
  | nil =>
    intro m1 m2 _ hinv k2
    exact hinv k2
  | cons r rest ih =>
    intro m1 m2 hc hinv k2
    rw [List.foldl_cons, List.foldl_cons]
    refine ih (upsert m1 (κ1 r) (applyResult r)) (upsert m2 (κ2 r) (applyResult r))
      (fun r' hr' => hc r' (List.mem_cons_of_mem _ hr')) ?_ k2
    intro k2'
    rw [lookupKey_upsert, sumBy_upsert c k2' F r (dF r) (hF r) hF0 m1 (κ1 r)]
    by_cases hk : k2' = κ2 r
    · rw [hk, if_pos rfl]
      have hck1 : c (κ1 r) = some (κ2 r) := hc r (List.mem_cons_self _ _)
      rw [if_pos hck1]
      simp only [Option.getD_some]
      rw [hF r, hinv (κ2 r)]
    · rw [if_neg hk]
      have hck1 : ¬ c (κ1 r) = some k2' := by
        rw [hc r (List.mem_cons_self _ _)]
        intro hcon
        injection hcon with hcon
        exact hk hcon.symm
      rw [if_neg hck1, hinv k2', Nat.add_zero]

/-! ### Concrete witness data -/

/-- A sample timestamp used by witnesses. -/
def wdt : DateTime := ⟨2024, 1, 1, 0, 0, 0⟩

/-- A failed probe result at `wdt`. -/
def wrFail : TestResult := ⟨wdt, false, none⟩

/-- The bucket produced by ingesting exactly one failed probe. -/
def wBucket : AggregatedStats := ⟨1, 0, [], 0, 1⟩

/-- The host store after ingesting one failed probe at `wdt`. -/
def wStore : Store3 :=
  ⟨[(fmtSecond wdt, wBucket)], [(fmtMinute wdt, wBucket)], [(fmtHour wdt, wBucket)]⟩

/-- The monitor state after that single ingest, for host `A`. -/
def wHost : HostData := [("A", wStore)]

/-- One second after `wdt`. -/
def wdt1 : DateTime := ⟨2024, 1, 1, 0, 0, 1⟩

/-- Two seconds after `wdt`. -/
def wdt2 : DateTime := ⟨2024, 1, 1, 0, 0, 2⟩

/-- Bucket with `sent = 10`, `received = 3` (70% loss). -/
def ws1 : AggregatedStats := ⟨10, 3, [], 3, 7⟩

/-- Bucket with `sent = 10`, `received = 2` (80% loss). -/
def ws2 : AggregatedStats := ⟨10, 2, [], 2, 8⟩

/-- Second store with two adjacent bad seconds (`wdt`, `wdt` + 1s). -/
def wsd2adj : StoreMap := [(fmtSecond wdt, ws1), (fmtSecond wdt1, ws2)]

/-- Second store with two bad seconds two seconds apart. -/
def wsd2far : StoreMap := [(fmtSecond wdt, ws1), (fmtSecond wdt2, ws2)]

/-- Second store with a single bad second. -/
def wsd1 : StoreMap := [(fmtSecond wdt, ws1)]

/-- The merged episode detected on `wsd2adj` with threshold `3/10`. -/
def wEp : OutageEpisode := ⟨"A", fmtSecond wdt, fmtSecond wdt1, 20, 5, 2, 75⟩

theorem ws1_qualifies : 0 < ws1.sent ∧ (3 : ℚ) / 10 < ws1.packet_loss := by
  constructor
  · norm_num [ws1]
  · norm_num [ws1, AggregatedStats.packet_loss]

theorem ws2_qualifies : 0 < ws2.sent ∧ (3 : ℚ) / 10 < ws2.packet_loss := by
  constructor
  · norm_num [ws2]
  · norm_num [ws2, AggregatedStats.packet_loss]

/-! ### Claim theorems -/

/-- Claim C1: for every sequence of ingested probe results, every bucket at
every resolution (second, minute, hour) for every target satisfies
`received ≤ sent`, `sent = success_count + fail_count` and
`received = success_count`; consequently its derived `packet_loss` lies in
`[0, 1]` and equals exactly `0` when `sent = 0`. -/
theorem C1_bucket_invariants (hosts : List String) (rs : List (String × TestResult))
    (hd' : HostData) (hrun : runMonitor (initHostData hosts) rs = some hd') :
    ∀ h st, (h, st) ∈ hd' → ∀ k b,
      ((k, b) ∈ st.second ∨ (k, b) ∈ st.minute ∨ (k, b) ∈ st.hour) →
      b.received ≤ b.sent ∧ b.sent = b.success_count + b.fail_count ∧
        b.received = b.success_count ∧ 0 ≤ b.packet_loss ∧ b.packet_loss ≤ 1 ∧
        (b.sent = 0 → b.packet_loss = 0) := by
  intro h st hmem k b hb
  have hinv := runMonitor_inv (initHostData_inv hosts) hrun (h, st) hmem
  have hstats : StatsInv b := by
    rcases hb with hb | hb | hb
    · exact hinv.1 (k, b) hb
    · exact hinv.2.1 (k, b) hb
    · exact hinv.2.2 (k, b) hb
  obtain ⟨h1, h2, h3⟩ := hstats
  obtain ⟨h4, h5, h6⟩ := packet_loss_range h1
  exact ⟨h1, h2, h3, h4, h5, h6⟩

/-- Witness for C1: the conclusion instantiated at the single bucket obtained
by ingesting one failed probe for host `A`. -/
theorem C1_bucket_invariants_witness :
    wBucket.received ≤ wBucket.sent ∧
      wBucket.sent = wBucket.success_count + wBucket.fail_count ∧
      wBucket.received = wBucket.success_count ∧ 0 ≤ wBucket.packet_loss ∧
      wBucket.packet_loss ≤ 1 ∧ (wBucket.sent = 0 → wBucket.packet_loss = 0) :=
  C1_bucket_invariants ["A"] [("A", wrFail)] wHost rfl "A" wStore
    (List.mem_singleton.mpr rfl) (fmtSecond wdt) wBucket
    (Or.inl (List.mem_singleton.mpr rfl))

/-- Claim C5: the outage scan is idempotent and side-effect free — scanning is
a pure function of the bucket store: the state-passing wrapper returns the
store unchanged, and a second scan of that returned store yields the same
episode list as the first scan. -/
theorem C5_scan_idempotent (hd : HostData) (threshold : ℚ) :
    (detectOutagesSt hd threshold).2 = hd ∧
      (detectOutagesSt (detectOutagesSt hd threshold).2 threshold).1 =
        (detectOutagesSt hd threshold).1 :=
  ⟨rfl, rfl⟩

/-- Claim C2: for every second-resolution store and threshold, the scan
qualifies a second as bad exactly when `sent > 0` and
`packet_loss > threshold`; two qualifying seconds exactly one second apart
merge into a single episode while the same two seconds two or more seconds
apart produce two separate episodes; zero qualifying seconds yield no
episodes; a single qualifying second yields a one-second episode with
`duration = 1`. -/
theorem C2_bad_second_merging :
    (∀ (sd : StoreMap) (threshold : ℚ) (k : String),
      (∃ b ∈ badSeconds sd threshold, b.time = k) ↔
        ∃ s, lookupKey sd k = some s ∧ 0 < s.sent ∧ threshold < s.packet_loss) ∧
    (∀ (host : String) (sd : StoreMap) (threshold : ℚ) (b1 b2 : BadSec) (t1 t2 : DateTime),
      badSeconds sd threshold = [b1, b2] → parseKey b1.time = some t1 →
      parseKey b2.time = some t2 → toSec t2 = toSec t1 + 1 →
      detectHost host sd threshold =
        some [⟨host, b1.time, b2.time, b1.sent + b2.sent, b1.received + b2.received, 2,
          lossFormula (b1.sent + b2.sent) (b1.received + b2.received)⟩]) ∧
    (∀ (host : String) (sd : StoreMap) (threshold : ℚ) (b1 b2 : BadSec) (t1 t2 : DateTime),
      badSeconds sd threshold = [b1, b2] → parseKey b1.time = some t1 →
      parseKey b2.time = some t2 → toSec t1 + 2 ≤ toSec t2 →
      detectHost host sd threshold =
        some [⟨host, b1.time, b1.time, b1.sent, b1.received, 1,
            lossFormula b1.sent b1.received⟩,
          ⟨host, b2.time, b2.time, b2.sent, b2.received, 1,
            lossFormula b2.sent b2.received⟩]) ∧
    (∀ (host : String) (sd : StoreMap) (threshold : ℚ),
      badSeconds sd threshold = [] → detectHost host sd threshold = some []) ∧
    (∀ (host : String) (sd : StoreMap) (threshold : ℚ) (b : BadSec) (t : DateTime),
      badSeconds sd threshold = [b] → parseKey b.time = some t →
      detectHost host sd threshold =
        some [⟨host, b.time, b.time, b.sent, b.received, 1,
          lossFormula b.sent b.received⟩]) := by
  refine ⟨fun sd threshold k => mem_badSeconds_iff, ?_, ?_, ?_, ?_⟩
  · intro host sd threshold b1 b2 t1 t2 hbad hp1 hp2 hsec
    have hgap : (toSec t2 : ℤ) - (toSec t1 : ℤ) ≤ 1 := by
      rw [hsec]
      push_cast
      omega
    rw [detectHost_pair hbad hp1 hp2, if_pos hgap]
  · intro host sd threshold b1 b2 t1 t2 hbad hp1 hp2 hsec
    have hgap : ¬ ((toSec t2 : ℤ) - (toSec t1 : ℤ) ≤ 1) := by
      push_cast
      omega
    rw [detectHost_pair hbad hp1 hp2, if_neg hgap]
  · intro host sd threshold hbad
    exact detectHost_zero hbad
  · intro host sd threshold b t hbad hp
    exact detectHost_single hbad hp

/-- Witness for C2: the five parts instantiated on concrete stores — a single
70%-loss second, two bad seconds one second apart (merged), the same two bad
seconds two seconds apart (split), and an empty store, all with threshold
`3/10`. -/
theorem C2_bad_second_merging_witness :
    ((∃ b ∈ badSeconds wsd1 (3 / 10), b.time = fmtSecond wdt) ↔
      ∃ s, lookupKey wsd1 (fmtSecond wdt) = some s ∧ 0 < s.sent ∧
        (3 : ℚ) / 10 < s.packet_loss) ∧
    detectHost "A" wsd2adj (3 / 10) =
      some [⟨"A", fmtSecond wdt, fmtSecond wdt1, 10 + 10, 3 + 2, 2,
        lossFormula (10 + 10) (3 + 2)⟩] ∧
    detectHost "A" wsd2far (3 / 10) =
      some [⟨"A", fmtSecond wdt, fmtSecond wdt, 10, 3, 1, lossFormula 10 3⟩,
        ⟨"A", fmtSecond wdt2, fmtSecond wdt2, 10, 2, 1, lossFormula 10 2⟩] ∧
    detectHost "A" [] (3 / 10) = some [] ∧
    detectHost "A" wsd1 (3 / 10) =
      some [⟨"A", fmtSecond wdt, fmtSecond wdt, 10, 3, 1, lossFormula 10 3⟩] := by
  have hv0 : wdt.Valid := by decide
  have hv1 : wdt1.Valid := by decide
  have hv2 : wdt2.Valid := by decide
  have hbad1 : badSeconds wsd1 (3 / 10) =
      [⟨fmtSecond wdt, ws1.sent, ws1.received, ws1.packet_loss * 100⟩] :=
    badSeconds_one hv0 ws1_qualifies
  have hbadAdj : badSeconds wsd2adj (3 / 10) =
      [⟨fmtSecond wdt, ws1.sent, ws1.received, ws1.packet_loss * 100⟩,
        ⟨fmtSecond wdt1, ws2.sent, ws2.received, ws2.packet_loss * 100⟩] :=
    badSeconds_two hv0 hv1 (by decide) ws1_qualifies ws2_qualifies
  have hbadFar : badSeconds wsd2far (3 / 10) =
      [⟨fmtSecond wdt, ws1.sent, ws1.received, ws1.packet_loss * 100⟩,
        ⟨fmtSecond wdt2, ws2.sent, ws2.received, ws2.packet_loss * 100⟩] :=
    badSeconds_two hv0 hv2 (by decide) ws1_qualifies ws2_qualifies
  refine ⟨C2_bad_second_merging.1 wsd1 (3 / 10) (fmtSecond wdt), ?_, ?_, ?_, ?_⟩
  · exact C2_bad_second_merging.2.1 "A" wsd2adj (3 / 10) _ _ wdt wdt1 hbadAdj
      (parseKey_fmtSecond hv0) (parseKey_fmtSecond hv1) (by decide)
  · exact C2_bad_second_merging.2.2.1 "A" wsd2far (3 / 10) _ _ wdt wdt2 hbadFar
      (parseKey_fmtSecond hv0) (parseKey_fmtSecond hv2) (by decide)
  · exact C2_bad_second_merging.2.2.2.1 "A" [] (3 / 10) rfl
  · exact C2_bad_second_merging.2.2.2.2 "A" wsd1 (3 / 10) _ wdt hbad1
      (parseKey_fmtSecond hv0)

/-- Claim C4: every closed outage episode reports `sent` and `received` as the
sums over its merged seconds, `duration` as the count of merged seconds, and
aggregate loss percent as `(sent - received) / sent * 100`; in particular the
two-second 70%/80%-loss scenario at threshold `3/10` produces one episode
spanning both seconds with duration 2 and aggregate loss 75%. -/
theorem C4_episode_aggregates :
    (∀ (host : String) (sd : StoreMap) (threshold : ℚ) (eps : List OutageEpisode),
      detectHost host sd threshold = some eps →
      ∃ groups : List (List BadSec),
        (∀ g ∈ groups, g ≠ []) ∧ groups.flatten = badSeconds sd threshold ∧
        eps = groups.map (episodeOf host) ∧
        ∀ g ∈ groups,
          (episodeOf host g).sent = (g.map BadSec.sent).sum ∧
          (episodeOf host g).received = (g.map BadSec.received).sum ∧
          (episodeOf host g).duration = g.length ∧
          (episodeOf host g).loss_percent =
            lossFormula (episodeOf host g).sent (episodeOf host g).received) ∧
    (∀ (host : String) (t1 t2 : DateTime), t1.Valid → t2.Valid → t1.lt t2 →
      toSec t2 = toSec t1 + 1 →
      detectHost host [(fmtSecond t1, ⟨10, 3, [], 3, 7⟩), (fmtSecond t2, ⟨10, 2, [], 2, 8⟩)]
          (3 / 10) =
        some [⟨host, fmtSecond t1, fmtSecond t2, 20, 5, 2, 75⟩]) := by
  constructor
  · intro host sd threshold eps h
    obtain ⟨groups, hne, hflat, heps⟩ := detectHost_groups h
    exact ⟨groups, hne, hflat, heps, fun g hg => ⟨rfl, rfl, rfl, rfl⟩⟩
  · intro host t1 t2 hv1 hv2 hlt hsec
    have hc1 : 0 < (⟨10, 3, [], 3, 7⟩ : AggregatedStats).sent ∧
        (3 : ℚ) / 10 < (⟨10, 3, [], 3, 7⟩ : AggregatedStats).packet_loss := by
      constructor
      · norm_num
      · norm_num [AggregatedStats.packet_loss]
    have hc2 : 0 < (⟨10, 2, [], 2, 8⟩ : AggregatedStats).sent ∧
        (3 : ℚ) / 10 < (⟨10, 2, [], 2, 8⟩ : AggregatedStats).packet_loss := by
      constructor
      · norm_num
      · norm_num [AggregatedStats.packet_loss]
    have hbad := badSeconds_two hv1 hv2 hlt hc1 hc2
    have hgap : (toSec t2 : ℤ) - (toSec t1 : ℤ) ≤ 1 := by
      rw [hsec]
      push_cast
      omega
    rw [detectHost_pair hbad (parseKey_fmtSecond hv1) (parseKey_fmtSecond hv2), if_pos hgap]
    norm_num [lossFormula]

/-- Witness for C4: the scenario instantiated at 2024-01-01 00:00:00 /
00:00:01, and the general aggregate-shape statement applied to the resulting
scan. -/
theorem C4_episode_aggregates_witness :
    detectHost "A" wsd2adj (3 / 10) = some [wEp] ∧
    (∃ groups : List (List BadSec),
      (∀ g ∈ groups, g ≠ []) ∧ groups.flatten = badSeconds wsd2adj (3 / 10) ∧
      [wEp] = groups.map (episodeOf "A") ∧
      ∀ g ∈ groups,
        (episodeOf "A" g).sent = (g.map BadSec.sent).sum ∧
        (episodeOf "A" g).received = (g.map BadSec.received).sum ∧
        (episodeOf "A" g).duration = g.length ∧
        (episodeOf "A" g).loss_percent =
          lossFormula (episodeOf "A" g).sent (episodeOf "A" g).received) := by
  have hdet : detectHost "A" wsd2adj (3 / 10) = some [wEp] :=
    C4_episode_aggregates.2 "A" wdt wdt1 (by decide) (by decide) (by decide) (by decide)
  exact ⟨hdet, C4_episode_aggregates.1 "A" wsd2adj (3 / 10) [wEp] hdet⟩

/-- The scan on the two adjacent bad seconds returns the single merged
episode. -/
theorem detect_wsd2adj : detectHost "A" wsd2adj (3 / 10) = some [wEp] := by
  have hbadAdj : badSeconds wsd2adj (3 / 10) =
      [⟨fmtSecond wdt, ws1.sent, ws1.received, ws1.packet_loss * 100⟩,
        ⟨fmtSecond wdt1, ws2.sent, ws2.received, ws2.packet_loss * 100⟩] :=
    badSeconds_two (by decide) (by decide) (by decide) ws1_qualifies ws2_qualifies
  have hgap : (toSec wdt1 : ℤ) - (toSec wdt : ℤ) ≤ 1 := by decide
  rw [detectHost_pair hbadAdj (parseKey_fmtSecond (by decide))
    (parseKey_fmtSecond (by decide)), if_pos hgap]
  norm_num [lossFormula, wEp, ws1, ws2]

/-! ### Ordering of the final episode list -/

instance : IsTrans OutageEpisode fun a b => strLe b.start a.start = true :=
  ⟨fun a b c hab hbc =>
    (strLe_iff _ _).mpr (le_trans ((strLe_iff _ _).mp hbc) ((strLe_iff _ _).mp hab))⟩

instance : IsTotal OutageEpisode fun a b => strLe b.start a.start = true :=
  ⟨fun a b => by
    rcases le_total b.start a.start with h | h
    · exact Or.inl ((strLe_iff _ _).mpr h)
    · exact Or.inr ((strLe_iff _ _).mpr h)⟩

theorem sortOutages_pairwise (l : List OutageEpisode) :
    (sortOutages l).Pairwise fun a b => b.start ≤ a.start :=
  (List.sorted_insertionSort _ l).imp fun h => (strLe_iff _ _).mp h

theorem sortOutages_mem {l : List OutageEpisode} {e : OutageEpisode} :
    e ∈ sortOutages l ↔ e ∈ l :=
  List.mem_insertionSort _

theorem mapM_option_mem {α β : Type} {f : α → Option β} :
    ∀ {l : List α} {l' : List β}, l.mapM f = some l' → ∀ b ∈ l', ∃ a ∈ l, f a = some b := by
  intro l
  induction l with
  | nil =>
    intro l' h b hb
    have h2 : some ([] : List β) = some l' := h
    injection h2 with h2
    subst h2
    simp at hb
  | cons a rest ih =>
    intro l' h b hb
    rw [List.mapM_cons] at h
    cases hfa : f a with
    | none => rw [hfa] at h; exact Option.noConfusion h
    | some b0 =>
      rw [hfa] at h
      cases hrest : rest.mapM f with
      | none =>
        rw [hrest] at h
        exact Option.noConfusion h
      | some bs =>
        rw [hrest] at h
        have h2 : some (b0 :: bs) = some l' := h
        injection h2 with h2
        subst h2
        rcases List.mem_cons.mp hb with hb | hb
        · subst hb
          exact ⟨a, List.mem_cons_self _ _, hfa⟩
        · obtain ⟨a', ha', hfa'⟩ := ih hrest b hb
          exact ⟨a', List.mem_cons_of_mem _ ha', hfa'⟩

theorem detectOutages_inv {hd : HostData} {threshold : ℚ} {eps : List OutageEpisode}
    (h : detectOutages hd threshold = some eps) :
    ∃ ls, (hd.mapM fun p => detectHost p.1 p.2.second threshold) = some ls ∧
      eps = sortOutages ls.flatten := by
  rw [detectOutages] at h
  cases hm : hd.mapM fun p => detectHost p.1 p.2.second threshold with
  | none => rw [hm] at h; exact Option.noConfusion h
  | some ls =>
    rw [hm] at h
    injection h with h
    exact ⟨ls, rfl, h.symm⟩

theorem detectOutages_start_mem {hd : HostData} {threshold : ℚ} {eps : List OutageEpisode}
    (h : detectOutages hd threshold = some eps) :
    ∀ ep ∈ eps, ∃ host st, (host, st) ∈ hd ∧ ep.start ∈ keysOf st.second := by
  obtain ⟨ls, hm, heps⟩ := detectOutages_inv h
  intro ep hep
  rw [heps] at hep
  obtain ⟨l, hl, hepl⟩ := List.mem_flatten.mp (sortOutages_mem.mp hep)
  obtain ⟨p, hp, hdet⟩ := mapM_option_mem hm l hl
  obtain ⟨groups, hne, hflat, heq⟩ := detectHost_groups hdet
  rw [heq] at hepl
  obtain ⟨g, hg, hepg⟩ := List.mem_map.mp hepl
  cases hgc : g with
  | nil => exact absurd hgc (hne g hg)
  | cons b grest =>
    have hstart : ep.start = b.time := by
      rw [← hepg, episodeOf, hgc]
      simp
    have hbmem : b ∈ badSeconds p.2.second threshold := by
      rw [← hflat]
      exact List.mem_flatten.mpr ⟨g, hg, by rw [hgc]; exact List.mem_cons_self _ _⟩
    exact ⟨p.1, p.2, hp, hstart ▸ badSeconds_time_mem_keys hbmem⟩

theorem detectOutages_single_host (st : Store3) {host : String} {threshold : ℚ}
    {l : List OutageEpisode} (h : detectHost host st.second threshold = some l) :
    detectOutages [(host, st)] threshold = some (sortOutages l) := by
  rw [detectOutages]
  have hm : ([(host, st)].mapM fun p => detectHost p.1 p.2.second threshold) = some [l] := by
    rw [List.mapM_cons, h, List.mapM_nil]
    rfl
  rw [hm]
  show some (sortOutages ([l] : List (List OutageEpisode)).flatten) = some (sortOutages l)
  simp

/-- Claim C7: the episode list returned by the outage scan is ordered
most-recent-first by start key: every episode's start key is
string-lexicographically (and, when the keys are well-formed time keys,
chronologically) no earlier than the start key of every later episode. -/
theorem C7_episodes_most_recent_first :
    (∀ (hd : HostData) (threshold : ℚ) (eps : List OutageEpisode),
      detectOutages hd threshold = some eps →
      eps.Pairwise fun a b => b.start ≤ a.start) ∧
    (∀ (hd : HostData) (threshold : ℚ) (eps : List OutageEpisode),
      (∀ host st, (host, st) ∈ hd → ∀ k ∈ keysOf st.second,
        ∃ t : DateTime, t.Valid ∧ k = fmtSecond t) →
      detectOutages hd threshold = some eps →
      eps.Pairwise fun a b => ∀ ta tb, parseKey a.start = some ta →
        parseKey b.start = some tb → ¬ ta.lt tb) := by
  have hsorted : ∀ (hd : HostData) (threshold : ℚ) (eps : List OutageEpisode),
      detectOutages hd threshold = some eps →
      eps.Pairwise fun a b => b.start ≤ a.start := by
    intro hd threshold eps h
    obtain ⟨ls, hm, heps⟩ := detectOutages_inv h
    rw [heps]
    exact sortOutages_pairwise ls.flatten
  refine ⟨hsorted, ?_⟩
  intro hd threshold eps hwf h
  refine (hsorted hd threshold eps h).imp_of_mem ?_
  intro a b ha hb hle ta tb hpa hpb hlt
  obtain ⟨hostA, stA, hstA, hka⟩ := detectOutages_start_mem h a ha
  obtain ⟨hostB, stB, hstB, hkb⟩ := detectOutages_start_mem h b hb
  obtain ⟨ta', hva', hfa'⟩ := hwf hostA stA hstA a.start hka
  obtain ⟨tb', hvb', hfb'⟩ := hwf hostB stB hstB b.start hkb
  have hpa' : parseKey a.start = some ta' := by rw [hfa']; exact parseKey_fmtSecond hva'
  have hpb' : parseKey b.start = some tb' := by rw [hfb']; exact parseKey_fmtSecond hvb'
  rw [hpa'] at hpa
  rw [hpb'] at hpb
  injection hpa with hpa
  injection hpb with hpb
  subst hpa
  subst hpb
  have hklt : a.start < b.start := by
    rw [hfa', hfb']
    exact (fmtSecond_lt_iff hva'.fits hvb'.fits).mpr hlt
  exact absurd hle (not_le.mpr hklt)

/-- Witness for C7: both parts instantiated on a one-host store containing the
two adjacent 70%/80%-loss seconds; the scan returns the single merged episode
and the (trivially sorted) singleton list satisfies both orderings. -/
theorem C7_episodes_most_recent_first_witness :
    ([wEp].Pairwise fun a b => b.start ≤ a.start) ∧
    ([wEp].Pairwise fun a b => ∀ ta tb, parseKey a.start = some ta →
      parseKey b.start = some tb → ¬ ta.lt tb) := by
  have hdo : detectOutages [("A", ⟨wsd2adj, [], []⟩)] (3 / 10) = some [wEp] := by
    rw [detectOutages_single_host ⟨wsd2adj, [], []⟩ detect_wsd2adj]
    rfl
  constructor
  · exact C7_episodes_most_recent_first.1 [("A", ⟨wsd2adj, [], []⟩)] (3 / 10) [wEp] hdo
  · refine C7_episodes_most_recent_first.2 [("A", ⟨wsd2adj, [], []⟩)] (3 / 10) [wEp] ?_ hdo
    intro host st hmem k hk
    rw [List.mem_singleton] at hmem
    injection hmem with h1 h2
    subst h2
    rw [keysOf, wsd2adj] at hk
    simp only [List.map_cons, List.map_nil] at hk
    rcases List.mem_cons.mp hk with hk | hk
    · exact ⟨wdt, by decide, hk⟩
    · rw [List.mem_singleton] at hk
      exact ⟨wdt1, by decide, hk⟩

/-! ### Eviction of old second buckets -/

theorem contains_iff {l : List String} {a : String} : l.contains a = true ↔ a ∈ l := by
  simp [List.contains_eq_any_beq, List.any_eq_true]

theorem keysOf_filter (p : String → Bool) (sd : StoreMap) :
    keysOf (sd.filter fun kv => p kv.1) = (keysOf sd).filter p := by
  induction sd with
  | nil => rfl
  | cons kv rest ih =>
    obtain ⟨k, v⟩ := kv
    cases hp : p k <;> simp [keysOf, List.filter_cons, hp] <;>
      simpa [keysOf] using ih

theorem length_eq_keys_length (sd : StoreMap) : sd.length = (keysOf sd).length := by
  rw [keysOf, List.length_map]

theorem cleanup_keys_perm {sd : StoreMap} {maxS : Nat} (hnd : (keysOf sd).Nodup)
    (hbig : maxS < sd.length) :
    List.Perm (keysOf (cleanupSecond sd maxS))
      ((sortStrings (keysOf sd)).drop (sd.length - maxS)) := by
  have hcl : cleanupSecond sd maxS = sd.filter fun kv =>
      !(((sortStrings (keysOf sd)).take (sd.length - maxS)).contains kv.1) := by
    rw [cleanupSecond, if_pos hbig]
  rw [hcl, keysOf_filter
    (fun x => !(((sortStrings (keysOf sd)).take (sd.length - maxS)).contains x)) sd]
  have hperm : List.Perm
      ((keysOf sd).filter fun k =>
        !((sortStrings (keysOf sd)).take (sd.length - maxS)).contains k)
      ((sortStrings (keysOf sd)).filter fun k =>
        !((sortStrings (keysOf sd)).take (sd.length - maxS)).contains k) :=
    List.Perm.filter _ (sortStrings_perm (keysOf sd)).symm
  refine hperm.trans ?_
  have hsplit := List.take_append_drop (sd.length - maxS) (sortStrings (keysOf sd))
  have hnds : (sortStrings (keysOf sd)).Nodup := sortStrings_nodup hnd
  rw [← hsplit] at hnds
  have hdisj := List.disjoint_of_nodup_append hnds
  nth_rewrite 2 [← hsplit]
  rw [List.filter_append]
  have h1 : (((sortStrings (keysOf sd)).take (sd.length - maxS)).filter fun k =>
      !((sortStrings (keysOf sd)).take (sd.length - maxS)).contains k) = [] := by
    rw [List.filter_eq_nil_iff]
    intro a ha
    rw [contains_iff.mpr ha]
    simp
  have h2 : (((sortStrings (keysOf sd)).drop (sd.length - maxS)).filter fun k =>
      !((sortStrings (keysOf sd)).take (sd.length - maxS)).contains k) =
      (sortStrings (keysOf sd)).drop (sd.length - maxS) := by
    rw [List.filter_eq_self]
    intro a ha
    have : a ∉ (sortStrings (keysOf sd)).take (sd.length - maxS) :=
      fun hmem => hdisj hmem ha
    simpa [contains_iff]
  rw [h1, h2, List.nil_append]

theorem cleanup_length_le {sd : StoreMap} {maxS : Nat} (hnd : (keysOf sd).Nodup) :
    (cleanupSecond sd maxS).length ≤ maxS := by
  by_cases hbig : maxS < sd.length
  · have hperm := cleanup_keys_perm hnd hbig
    have hlen := hperm.length_eq
    rw [← length_eq_keys_length] at hlen
    rw [hlen, List.length_drop, sortStrings_length, ← length_eq_keys_length]
    omega
  · rw [cleanupSecond, if_neg hbig]
    omega

theorem cleanup_length_eq {sd : StoreMap} {maxS : Nat} (hnd : (keysOf sd).Nodup)
    (hbig : maxS < sd.length) : (cleanupSecond sd maxS).length = maxS := by
  have hperm := cleanup_keys_perm hnd hbig
  have hlen := hperm.length_eq
  rw [← length_eq_keys_length] at hlen
  rw [hlen, List.length_drop, sortStrings_length, ← length_eq_keys_length]
  omega

theorem cleanup_mem_iff {sd : StoreMap} {maxS : Nat} (hnd : (keysOf sd).Nodup) (k : String) :
    k ∈ keysOf (cleanupSecond sd maxS) ↔
      k ∈ (sortStrings (keysOf sd)).drop (sd.length - maxS) := by
  by_cases hbig : maxS < sd.length
  · exact (cleanup_keys_perm hnd hbig).mem_iff
  · rw [cleanupSecond, if_neg hbig]
    have h0 : sd.length - maxS = 0 := by omega
    rw [h0, List.drop_zero, sortStrings_mem]

theorem cleanup_removed_le {sd : StoreMap} {maxS : Nat} (hnd : (keysOf sd).Nodup) :
    ∀ r ∈ keysOf sd, r ∉ keysOf (cleanupSecond sd maxS) →
    ∀ k ∈ keysOf (cleanupSecond sd maxS), r ≤ k := by
  intro r hr hnot k hk
  by_cases hbig : maxS < sd.length
  · have hrs : r ∈ sortStrings (keysOf sd) := sortStrings_mem.mpr hr
    have hrd : r ∉ (sortStrings (keysOf sd)).drop (sd.length - maxS) :=
      fun hmem => hnot ((cleanup_mem_iff hnd r).mpr hmem)
    have hrt : r ∈ (sortStrings (keysOf sd)).take (sd.length - maxS) := by
      have hsplit := List.take_append_drop (sd.length - maxS) (sortStrings (keysOf sd))
      rw [← hsplit] at hrs
      rcases List.mem_append.mp hrs with h | h
      · exact h
      · exact absurd h hrd
    have hkd : k ∈ (sortStrings (keysOf sd)).drop (sd.length - maxS) :=
      (cleanup_mem_iff hnd k).mp hk
    have hsorted := sortStrings_sorted (keysOf sd)
    have hsplit := List.take_append_drop (sd.length - maxS) (sortStrings (keysOf sd))
    rw [← hsplit] at hsorted
    exact (List.pairwise_append.mp hsorted).2.2 r hrt k hkd
  · exact absurd ((cleanup_mem_iff hnd r).mpr
      (by rw [show sd.length - maxS = 0 from by omega, List.drop_zero]
          exact sortStrings_mem.mpr hr)) hnot

/-! ### Stores built by chronological ingestion -/

theorem foldl_updateStats_second (rs : List TestResult) (st : Store3) :
    (rs.foldl updateStats st).second =
      rs.foldl (fun m r => upsert m (fmtSecond r.timestamp) (applyResult r)) st.second := by
  induction rs generalizing st with
  | nil => rfl
  | cons r rest ih =>
    rw [List.foldl_cons, List.foldl_cons, ih]
    rfl

theorem foldl_updateStats_minute (rs : List TestResult) (st : Store3) :
    (rs.foldl updateStats st).minute =
      rs.foldl (fun m r => upsert m (fmtMinute r.timestamp) (applyResult r)) st.minute := by
  induction rs generalizing st with
  | nil => rfl
  | cons r rest ih =>
    rw [List.foldl_cons, List.foldl_cons, ih]
    rfl

theorem foldl_updateStats_hour (rs : List TestResult) (st : Store3) :
    (rs.foldl updateStats st).hour =
      rs.foldl (fun m r => upsert m (fmtHour r.timestamp) (applyResult r)) st.hour := by
  induction rs generalizing st with
  | nil => rfl
  | cons r rest ih =>
    rw [List.foldl_cons, List.foldl_cons, ih]
    rfl

theorem keysOf_cons (k : String) (v : AggregatedStats) (rest : StoreMap) :
    keysOf ((k, v) :: rest) = k :: keysOf rest := rfl

theorem keysOf_upsert (m : StoreMap) (k : String) (f : AggregatedStats → AggregatedStats) :
    keysOf (upsert m k f) = if k ∈ keysOf m then keysOf m else keysOf m ++ [k] := by
  induction m with
  | nil => simp [upsert, keysOf]
  | cons kv rest ih =>
    obtain ⟨k', v⟩ := kv
    rw [upsert]
    by_cases hk : k' = k
    · subst hk
      rw [if_pos rfl, keysOf_cons, keysOf_cons, if_pos (List.mem_cons_self _ _)]
    · rw [if_neg hk, keysOf_cons, keysOf_cons, ih]
      by_cases hmem : k ∈ keysOf rest
      · rw [if_pos hmem, if_pos (List.mem_cons_of_mem _ hmem)]
      · rw [if_neg hmem, if_neg ?hn, List.cons_append]
        case hn =>
          intro hcon
          rcases List.mem_cons.mp hcon with h | h
          · exact hk h.symm
          · exact hmem h

theorem keysOf_fold_fresh (κ : TestResult → String) :
    ∀ (rs : List TestResult) (m0 : StoreMap),
      (∀ r ∈ rs, κ r ∉ keysOf m0) → (rs.map κ).Nodup →
      keysOf (rs.foldl (fun m r => upsert m (κ r) (applyResult r)) m0) =
        keysOf m0 ++ rs.map κ := by
  intro rs
  induction rs with
  | nil => intro m0 _ _; simp
  | cons r rest ih =>
    intro m0 hfresh hnd
    rw [List.foldl_cons]
    rw [List.map_cons, List.nodup_cons] at hnd
    have hk1 : keysOf (upsert m0 (κ r) (applyResult r)) = keysOf m0 ++ [κ r] := by
      rw [keysOf_upsert, if_neg (hfresh r (List.mem_cons_self _ _))]
    have hstep := ih (upsert m0 (κ r) (applyResult r)) ?hfresh2 hnd.2
    case hfresh2 =>
      intro r' hr'
      rw [hk1]
      intro hcon
      rcases List.mem_append.mp hcon with h | h
      · exact hfresh r' (List.mem_cons_of_mem _ hr') h
      · rw [List.mem_singleton] at h
        exact hnd.1 (h ▸ List.mem_map_of_mem κ hr')
    rw [hstep, hk1, List.map_cons, List.append_assoc, List.singleton_append]

/-! ### The 3700-second retention scenario -/

/-- The n-th scenario timestamp: 2024-01-01 00:00:00 plus `n` seconds
(`n < 86400`). -/
def scn (n : Nat) : DateTime := ⟨2024, 1, 1, n / 3600, n / 60 % 60, n % 60⟩

/-- 3700 failed probes over 3700 consecutive distinct seconds. -/
def scnResults : List TestResult := (List.range 3700).map fun n => ⟨scn n, false, none⟩

/-- The host store after ingesting the 3700 scenario probes. -/
def scnStore : Store3 := scnResults.foldl updateStats emptyStore3

/-- The scenario's second-resolution keys in ingestion (chronological)
order. -/
def scnKeys : List String := (List.range 3700).map fun n => fmtSecond (scn n)

theorem scn_fits {n : Nat} (h : n < 86400) : (scn n).Fits := by
  unfold scn DateTime.Fits
  dsimp
  omega

theorem scn_lt {n m : Nat} (h : n < m) (hm : m < 86400) : (scn n).lt (scn m) := by
  unfold scn DateTime.lt
  dsimp
  omega

theorem scnKeys_pairwise : scnKeys.Pairwise (· < ·) := by
  rw [scnKeys, List.pairwise_map]
  refine (List.sorted_lt_range 3700).imp_of_mem ?_
  intro a b ha hb hab
  rw [List.mem_range] at ha hb
  exact (fmtSecond_lt_iff (scn_fits (by omega)) (scn_fits (by omega))).mpr
    (scn_lt hab (by omega))

theorem scnKeys_nodup : scnKeys.Nodup :=
  scnKeys_pairwise.imp ne_of_lt

theorem keysOf_fold_fresh_second (rs : List TestResult) (m0 : StoreMap)
    (hfresh : ∀ r ∈ rs, fmtSecond r.timestamp ∉ keysOf m0)
    (hnd : (rs.map fun r => fmtSecond r.timestamp).Nodup) :
    keysOf (rs.foldl (fun m r => upsert m (fmtSecond r.timestamp) (applyResult r)) m0) =
      keysOf m0 ++ rs.map fun r => fmtSecond r.timestamp :=
  keysOf_fold_fresh (fun r => fmtSecond r.timestamp) rs m0 hfresh hnd

theorem scnResults_map_keys :
    (scnResults.map fun r => fmtSecond r.timestamp) = scnKeys := by
  rw [scnResults, scnKeys, List.map_map]
  rfl

theorem scnStore_second_keys : keysOf scnStore.second = scnKeys := by
  rw [scnStore, foldl_updateStats_second]
  have hfresh : ∀ r ∈ scnResults, fmtSecond r.timestamp ∉ keysOf emptyStore3.second := by
    intro r _
    simp [emptyStore3, keysOf]
  have hnd : (scnResults.map fun r => fmtSecond r.timestamp).Nodup := by
    rw [scnResults_map_keys]
    exact scnKeys_nodup
  rw [keysOf_fold_fresh_second scnResults emptyStore3.second hfresh hnd, scnResults_map_keys]
  exact List.nil_append scnKeys

theorem scnStore_second_length : scnStore.second.length = 3700 := by
  rw [length_eq_keys_length, scnStore_second_keys, scnKeys, List.length_map,
    List.length_range]

theorem mem_drop_range {N M n : Nat} : n ∈ (List.range N).drop M ↔ M ≤ n ∧ n < N := by
  constructor
  · intro h
    obtain ⟨i, hi, hget⟩ := List.mem_iff_getElem.mp h
    rw [List.getElem_drop, List.getElem_range] at hget
    rw [List.length_drop, List.length_range] at hi
    omega
  · intro hn
    refine List.mem_iff_getElem.mpr ⟨n - M, ?_, ?_⟩
    · rw [List.length_drop, List.length_range]
      omega
    · rw [List.getElem_drop, List.getElem_range]
      omega

theorem scn_key_mem_drop {n : Nat} (hn : n < 3700) :
    fmtSecond (scn n) ∈ scnKeys.drop 100 ↔ 100 ≤ n := by
  rw [scnKeys, ← List.map_drop]
  constructor
  · intro h
    obtain ⟨m, hm, heq⟩ := List.mem_map.mp h
    have hmr := mem_drop_range.mp hm
    have hinj : scn m = scn n :=
      fmtSecond_inj (scn_fits (by omega)) (scn_fits (by omega)) heq
    have hmn : m = n := by
      have h1 : (scn m).second = m % 60 := rfl
      have h2 : (scn m).minute = m / 60 % 60 := rfl
      have h3 : (scn m).hour = m / 3600 := rfl
      have h4 : (scn n).second = n % 60 := rfl
      have h5 : (scn n).minute = n / 60 % 60 := rfl
      have h6 : (scn n).hour = n / 3600 := rfl
      have e1 : m % 60 = n % 60 := by rw [← h1, ← h4, hinj]
      have e2 : m / 60 % 60 = n / 60 % 60 := by rw [← h2, ← h5, hinj]
      have e3 : m / 3600 = n / 3600 := by rw [← h3, ← h6, hinj]
      omega
    omega
  · intro h
    exact List.mem_map_of_mem _ (mem_drop_range.mpr ⟨h, hn⟩)

/-- Claim C3: after eviction with bound `maxSeconds`, every target's
second-resolution bucket count is at most `maxSeconds` and the retained keys
are exactly the most recent ones (the suffix of the sorted key list after
dropping the oldest `count - maxSeconds`; every evicted key sorts at or before
every retained key), while minute- and hour-resolution mappings are left
unchanged; in particular 3700 ingests over 3700 distinct consecutive seconds
with `maxSeconds = 3600` leave exactly 3600 second buckets, the oldest 100
gone. -/
theorem C3_eviction_retention :
    (∀ (sd : StoreMap) (maxS : Nat), (keysOf sd).Nodup →
      (cleanupSecond sd maxS).length ≤ maxS ∧
      (∀ k, k ∈ keysOf (cleanupSecond sd maxS) ↔
        k ∈ (sortStrings (keysOf sd)).drop (sd.length - maxS)) ∧
      (∀ r ∈ keysOf sd, r ∉ keysOf (cleanupSecond sd maxS) →
        ∀ k ∈ keysOf (cleanupSecond sd maxS), r ≤ k)) ∧
    (∀ (hd : HostData) (maxS : Nat) (p : String × Store3), p ∈ cleanupOldData hd maxS →
      ∃ q ∈ hd, p.1 = q.1 ∧ p.2.minute = q.2.minute ∧ p.2.hour = q.2.hour ∧
        p.2.second = cleanupSecond q.2.second maxS) ∧
    ((cleanupSecond scnStore.second 3600).length = 3600 ∧
      ∀ n, n < 3700 →
        (fmtSecond (scn n) ∈ keysOf (cleanupSecond scnStore.second 3600) ↔ 100 ≤ n)) := by
  refine ⟨?_, ?_, ?_, ?_⟩
  · intro sd maxS hnd
    exact ⟨cleanup_length_le hnd, cleanup_mem_iff hnd, cleanup_removed_le hnd⟩
  · intro hd maxS p hp
    rw [cleanupOldData] at hp
    obtain ⟨q, hq, hpq⟩ := List.mem_map.mp hp
    refine ⟨q, hq, ?_, ?_, ?_, ?_⟩ <;> rw [← hpq]
  · have hnd : (keysOf scnStore.second).Nodup := by
      rw [scnStore_second_keys]
      exact scnKeys_nodup
    have hbig : 3600 < scnStore.second.length := by
      rw [scnStore_second_length]
      omega
    exact cleanup_length_eq hnd hbig
  · intro n hn
    have hnd : (keysOf scnStore.second).Nodup := by
      rw [scnStore_second_keys]
      exact scnKeys_nodup
    have hmem := @cleanup_mem_iff scnStore.second 3600 hnd (fmtSecond (scn n))
    rw [scnStore_second_keys, scnStore_second_length,
      sortStrings_eq_of_sorted (scnKeys_pairwise.imp le_of_lt)] at hmem
    rw [hmem, show (3700 : Nat) - 3600 = 100 from rfl]
    exact scn_key_mem_drop hn

/-- Witness for C3: the general retention statement at a two-key store with
bound 1, the untouched minute/hour statement at a one-host state, and the
3700-second scenario at seconds 50 (evicted) and 3650 (retained). -/
theorem C3_eviction_retention_witness :
    ((cleanupSecond wsd2adj 1).length ≤ 1 ∧
      (∀ k, k ∈ keysOf (cleanupSecond wsd2adj 1) ↔
        k ∈ (sortStrings (keysOf wsd2adj)).drop (wsd2adj.length - 1)) ∧
      (∀ r ∈ keysOf wsd2adj, r ∉ keysOf (cleanupSecond wsd2adj 1) →
        ∀ k ∈ keysOf (cleanupSecond wsd2adj 1), r ≤ k)) ∧
    (∃ q ∈ [("A", wStore)], ("A", wStore).1 = q.1 ∧
      ("A", wStore).2.minute = q.2.minute ∧ ("A", wStore).2.hour = q.2.hour ∧
      ("A", wStore).2.second = cleanupSecond q.2.second 5) ∧
    (fmtSecond (scn 50) ∈ keysOf (cleanupSecond scnStore.second 3600) ↔ 100 ≤ 50) ∧
    (fmtSecond (scn 3650) ∈ keysOf (cleanupSecond scnStore.second 3600) ↔ 100 ≤ 3650) := by
  refine ⟨?_, ?_, ?_, ?_⟩
  · exact C3_eviction_retention.1 wsd2adj 1 (by decide)
  · exact C3_eviction_retention.2.1 [("A", wStore)] 5 ("A", wStore) (by decide)
  · exact C3_eviction_retention.2.2.2 50 (by omega)
  · exact C3_eviction_retention.2.2.2 3650 (by omega)

theorem DateTime.Fits.truncMin {t : DateTime} (h : t.Fits) :
    DateTime.Fits { t with second := 0 } := by
  obtain ⟨h1, h2, h3, h4, h5, h6⟩ := h
  exact ⟨h1, h2, h3, h4, h5, Nat.zero_le 99⟩

theorem DateTime.Fits.truncHour {t : DateTime} (h : t.Fits) :
    DateTime.Fits { t with minute := 0, second := 0 } := by
  obtain ⟨h1, h2, h3, h4, h5, h6⟩ := h
  exact ⟨h1, h2, h3, h4, Nat.zero_le 99, Nat.zero_le 99⟩

/-- Claim C6: ingest derives its three time-keys from the timestamp by
truncation — the second key keeps seconds precision, the minute key zeroes the
seconds field, the hour key zeroes minutes and seconds — in the fixed-width
`YYYY-MM-DD HH:MM:SS` format, and for any two timestamps whose fields fit
those widths (four-digit year) the lexicographic order of their keys at a
given resolution agrees with the chronological (field-lexicographic) order of
their truncations. -/
theorem C6_key_truncation_order :
    (∀ (d : Store3) (r : TestResult),
      (updateStats d r).second = upsert d.second (fmtSecond r.timestamp) (applyResult r) ∧
      (updateStats d r).minute =
        upsert d.minute (fmtSecond { r.timestamp with second := 0 }) (applyResult r) ∧
      (updateStats d r).hour =
        upsert d.hour (fmtSecond { r.timestamp with minute := 0, second := 0 })
          (applyResult r)) ∧
    (∀ t : DateTime, fmtMinute t = fmtSecond { t with second := 0 } ∧
      fmtHour t = fmtSecond { t with minute := 0, second := 0 }) ∧
    (∀ t1 t2 : DateTime, t1.Fits → t2.Fits →
      (fmtSecond t1 < fmtSecond t2 ↔ t1.lt t2) ∧
      (fmtMinute t1 < fmtMinute t2 ↔
        DateTime.lt { t1 with second := 0 } { t2 with second := 0 }) ∧
      (fmtHour t1 < fmtHour t2 ↔
        DateTime.lt { t1 with minute := 0, second := 0 }
          { t2 with minute := 0, second := 0 })) := by
  refine ⟨?_, ?_, ?_⟩
  · intro d r
    refine ⟨rfl, ?_, ?_⟩
    · rw [updateStats, ← fmtMinute_eq_trunc]
    · rw [updateStats, ← fmtHour_eq_trunc]
  · intro t
    exact ⟨fmtMinute_eq_trunc t, fmtHour_eq_trunc t⟩
  · intro t1 t2 h1 h2
    refine ⟨fmtSecond_lt_iff h1 h2, ?_, ?_⟩
    · rw [fmtMinute_eq_trunc, fmtMinute_eq_trunc]
      exact fmtSecond_lt_iff h1.truncMin h2.truncMin
    · rw [fmtHour_eq_trunc, fmtHour_eq_trunc]
      exact fmtSecond_lt_iff h1.truncHour h2.truncHour

/-- Witness for C6: the derivation parts at a concrete ingest and the order
agreement at 2024-01-01 00:00:00 versus 00:00:01. -/
theorem C6_key_truncation_order_witness :
    ((updateStats emptyStore3 wrFail).second =
        upsert emptyStore3.second (fmtSecond wrFail.timestamp) (applyResult wrFail) ∧
      (updateStats emptyStore3 wrFail).minute =
        upsert emptyStore3.minute (fmtSecond { wrFail.timestamp with second := 0 })
          (applyResult wrFail) ∧
      (updateStats emptyStore3 wrFail).hour =
        upsert emptyStore3.hour (fmtSecond { wrFail.timestamp with minute := 0, second := 0 })
          (applyResult wrFail)) ∧
    (fmtMinute wdt = fmtSecond { wdt with second := 0 } ∧
      fmtHour wdt = fmtSecond { wdt with minute := 0, second := 0 }) ∧
    ((fmtSecond wdt < fmtSecond wdt1 ↔ wdt.lt wdt1) ∧
      (fmtMinute wdt < fmtMinute wdt1 ↔
        DateTime.lt { wdt with second := 0 } { wdt1 with second := 0 }) ∧
      (fmtHour wdt < fmtHour wdt1 ↔
        DateTime.lt { wdt with minute := 0, second := 0 }
          { wdt1 with minute := 0, second := 0 })) :=
  ⟨C6_key_truncation_order.1 emptyStore3 wrFail,
    C6_key_truncation_order.2.1 wdt,
    C6_key_truncation_order.2.2 wdt wdt1 (by decide) (by decide)⟩

theorem upsert_keys_nodup {m : StoreMap} {k : String} {f : AggregatedStats → AggregatedStats}
    (h : (keysOf m).Nodup) : (keysOf (upsert m k f)).Nodup := by
  rw [keysOf_upsert]
  by_cases hm : k ∈ keysOf m
  · rw [if_pos hm]
    exact h
  · rw [if_neg hm]
    refine List.Nodup.append h (List.nodup_singleton k) ?_
    intro a ha hb
    rw [List.mem_singleton] at hb
    subst hb
    exact hm ha

theorem fold_keys_nodup (κ : TestResult → String) :
    ∀ (rs : List TestResult) (m0 : StoreMap), (keysOf m0).Nodup →
      (keysOf (rs.foldl (fun m r => upsert m (κ r) (applyResult r)) m0)).Nodup := by
  intro rs
  induction rs with
  | nil =>
    intro m0 h
    exact h
  | cons r rest ih =>
    intro m0 h
    rw [List.foldl_cons]
    exact ih _ (upsert_keys_nodup h)

theorem joinBy_upsert_last (c : String → Option String) (k2 : String) (r : TestResult) :
    ∀ (m1 : StoreMap) (k1 : String), (keysOf m1).Pairwise (· < ·) →
      (∀ k ∈ keysOf m1, k ≤ k1) →
      joinBy (upsert m1 k1 (applyResult r)) c k2 =
        joinBy m1 c k2 ++ (if c k1 = some k2 then rttDelta r else []) := by
  intro m1
  induction m1 with
  | nil =>
    intro k1 _ _
    by_cases hc : c k1 = some k2
    · rw [if_pos hc]
      simp [upsert, joinBy, List.filter_cons, hc, applyResult_rtts_delta, emptyStats]
    · rw [if_neg hc]
      simp [upsert, joinBy, List.filter_cons, hc]
  | cons kv rest ih =>
    intro k1 hsorted hmax
    obtain ⟨k0, v⟩ := kv
    rw [keysOf_cons, List.pairwise_cons] at hsorted
    by_cases h0 : k0 = k1
    · subst h0
      have hrest : rest = [] := by
        cases rest with
        | nil => rfl
        | cons kv' rest' =>
          exfalso
          obtain ⟨k0', v'⟩ := kv'
          have hlt : k0 < k0' := hsorted.1 k0' (by
            rw [keysOf_cons]
            exact List.mem_cons_self _ _)
          have hle : k0' ≤ k0 := hmax k0' (by
            rw [keysOf_cons, keysOf_cons]
            exact List.mem_cons_of_mem _ (List.mem_cons_self _ _))
          exact absurd hle (not_le.mpr hlt)
      subst hrest
      by_cases hc : c k0 = some k2
      · simp [upsert, joinBy, List.filter_cons, hc, applyResult_rtts_delta]
      · simp [upsert, joinBy, List.filter_cons, hc]
    · have hrec := ih k1 hsorted.2 (fun k hk => hmax k (by
        rw [keysOf_cons]
        exact List.mem_cons_of_mem _ hk))
      simp only [joinBy] at hrec ⊢
      rw [upsert, if_neg h0]
      by_cases hc : c k0 = some k2 <;> by_cases hck : c k1 = some k2 <;>
        simp [List.filter_cons, hc, hck, hrec]

theorem fold_rtts (κ1 κ2 : TestResult → String) (c : String → Option String) :
    ∀ (rs : List TestResult) (m1 m2 : StoreMap),
      (∀ r ∈ rs, c (κ1 r) = some (κ2 r)) →
      (rs.map κ1).Pairwise (· ≤ ·) →
      (∀ k ∈ keysOf m1, ∀ r ∈ rs, k ≤ κ1 r) →
      (keysOf m1).Pairwise (· < ·) →
      (∀ k2, ((lookupKey m2 k2).getD emptyStats).rtts = joinBy m1 c k2) →
      ∀ k2, ((lookupKey (rs.foldl (fun m r => upsert m (κ2 r) (applyResult r)) m2)
          k2).getD emptyStats).rtts =
        joinBy (rs.foldl (fun m r => upsert m (κ1 r) (applyResult r)) m1) c k2 := by
  intro rs
  induction rs with
  | nil =>
    intro m1 m2 _ _ _ _ hinv k2
    exact hinv k2
  | cons r rest ih =>
    intro m1 m2 hc hchron hup hsorted hinv k2
    rw [List.foldl_cons, List.foldl_cons]
    rw [List.map_cons, List.pairwise_cons] at hchron
    refine ih (upsert m1 (κ1 r) (applyResult r)) (upsert m2 (κ2 r) (applyResult r))
      (fun r' hr' => hc r' (List.mem_cons_of_mem _ hr')) hchron.2 ?_ ?_ ?_ k2
    · intro k hk r' hr'
      rw [keysOf_upsert] at hk
      by_cases hm : κ1 r ∈ keysOf m1
      · rw [if_pos hm] at hk
        exact hup k hk r' (List.mem_cons_of_mem _ hr')
      · rw [if_neg hm] at hk
        rcases List.mem_append.mp hk with h | h
        · exact hup k h r' (List.mem_cons_of_mem _ hr')
        · rw [List.mem_singleton] at h
          subst h
          exact hchron.1 (κ1 r') (List.mem_map_of_mem κ1 hr')
    · rw [keysOf_upsert]
      by_cases hm : κ1 r ∈ keysOf m1
      · rw [if_pos hm]
        exact hsorted
      · rw [if_neg hm]
        rw [List.pairwise_append]
        refine ⟨hsorted, by simp, ?_⟩
        intro k hk k' hk'
        rw [List.mem_singleton] at hk'
        subst hk'
        have hle : k ≤ κ1 r := hup k hk r (List.mem_cons_self _ _)
        have hne : k ≠ κ1 r := fun hcon => hm (hcon ▸ hk)
        exact lt_of_le_of_ne hle hne
    · intro k2'
      rw [lookupKey_upsert,
        joinBy_upsert_last c k2' r m1 (κ1 r) hsorted
          (fun k hk => hup k hk r (List.mem_cons_self _ _))]
      by_cases hk : k2' = κ2 r
      · rw [hk, if_pos rfl]
        have hck1 : c (κ1 r) = some (κ2 r) := hc r (List.mem_cons_self _ _)
        rw [if_pos hck1]
        simp only [Option.getD_some]
        rw [applyResult_rtts_delta, hinv (κ2 r)]
      · rw [if_neg hk]
        have hck1 : ¬ c (κ1 r) = some k2' := by
          rw [hc r (List.mem_cons_self _ _)]
          intro hcon
          injection hcon with hcon
          exact hk hcon.symm
        rw [if_neg hck1, hinv k2', List.append_nil]

theorem DateTime.Valid.truncMinute {t : DateTime} (h : t.Valid) :
    DateTime.Valid { t with second := 0 } := by
  obtain ⟨h1, h2, h3, h4, h5, h6, h7, h8, _⟩ := h
  exact ⟨h1, h2, h3, h4, h5, h6, h7, h8, Nat.zero_le 59⟩

theorem minuteKeyOf_fmtSecond {t : DateTime} (h : t.Valid) :
    minuteKeyOf (fmtSecond t) = some (fmtMinute t) := by
  rw [minuteKeyOf, parseKey_fmtSecond h]
  rfl

theorem hourKeyOf_fmtMinute {t : DateTime} (h : t.Valid) :
    hourKeyOf (fmtMinute t) = some (fmtHour t) := by
  rw [hourKeyOf, fmtMinute_eq_trunc, parseKey_fmtSecond h.truncMinute]
  rfl

theorem DateTime.lt_of_truncMin_lt {t1 t2 : DateTime}
    (h : DateTime.lt { t1 with second := 0 } { t2 with second := 0 }) : t1.lt t2 := by
  cases t1; cases t2
  simp only [DateTime.lt] at h ⊢
  omega

theorem fold_counts_minute (F : AggregatedStats → Nat) (dF : TestResult → Nat)
    (hF : ∀ r s, F (applyResult r s) = F s + dF r) (hF0 : F emptyStats = 0)
    (rs : List TestResult) (hval : ∀ r ∈ rs, r.timestamp.Valid) (mk : String) :
    F ((lookupKey (rs.foldl updateStats emptyStore3).minute mk).getD emptyStats) =
      sumBy (rs.foldl updateStats emptyStore3).second minuteKeyOf mk F := by
  rw [foldl_updateStats_minute, foldl_updateStats_second]
  exact fold_counts F dF hF hF0 (fun r => fmtSecond r.timestamp)
    (fun r => fmtMinute r.timestamp) minuteKeyOf rs emptyStore3.second emptyStore3.minute
    (fun r hr => minuteKeyOf_fmtSecond (hval r hr))
    (fun k2 => by simp [lookupKey, sumBy, hF0, emptyStore3]) mk

theorem fold_counts_hour (F : AggregatedStats → Nat) (dF : TestResult → Nat)
    (hF : ∀ r s, F (applyResult r s) = F s + dF r) (hF0 : F emptyStats = 0)
    (rs : List TestResult) (hval : ∀ r ∈ rs, r.timestamp.Valid) (hk : String) :
    F ((lookupKey (rs.foldl updateStats emptyStore3).hour hk).getD emptyStats) =
      sumBy (rs.foldl updateStats emptyStore3).minute hourKeyOf hk F := by
  rw [foldl_updateStats_hour, foldl_updateStats_minute]
  exact fold_counts F dF hF hF0 (fun r => fmtMinute r.timestamp)
    (fun r => fmtHour r.timestamp) hourKeyOf rs emptyStore3.minute emptyStore3.hour
    (fun r hr => hourKeyOf_fmtMinute (hval r hr))
    (fun k2 => by simp [lookupKey, sumBy, hF0, emptyStore3]) hk

theorem fold_rtts_minute (rs : List TestResult) (hval : ∀ r ∈ rs, r.timestamp.Valid)
    (hchron : rs.Pairwise (fun a b => ¬ DateTime.lt b.timestamp a.timestamp))
    (mk : String) :
    ((lookupKey (rs.foldl updateStats emptyStore3).minute mk).getD emptyStats).rtts =
      joinBy (rs.foldl updateStats emptyStore3).second minuteKeyOf mk := by
  rw [foldl_updateStats_minute, foldl_updateStats_second]
  refine fold_rtts (fun r => fmtSecond r.timestamp) (fun r => fmtMinute r.timestamp)
    minuteKeyOf rs emptyStore3.second emptyStore3.minute
    (fun r hr => minuteKeyOf_fmtSecond (hval r hr)) ?_
    (fun k hk => absurd hk (by simp [keysOf, emptyStore3]))
    (by simp [keysOf, emptyStore3])
    (fun k2 => by simp [lookupKey, joinBy, emptyStats, emptyStore3]) mk
  rw [List.pairwise_map]
  refine hchron.imp_of_mem ?_
  intro a b ha hb hab
  exact (fmtSecond_le_iff (hval a ha).fits (hval b hb).fits).mpr hab

theorem fold_rtts_hour (rs : List TestResult) (hval : ∀ r ∈ rs, r.timestamp.Valid)
    (hchron : rs.Pairwise (fun a b => ¬ DateTime.lt b.timestamp a.timestamp))
    (hk : String) :
    ((lookupKey (rs.foldl updateStats emptyStore3).hour hk).getD emptyStats).rtts =
      joinBy (rs.foldl updateStats emptyStore3).minute hourKeyOf hk := by
  rw [foldl_updateStats_hour, foldl_updateStats_minute]
  refine fold_rtts (fun r => fmtMinute r.timestamp) (fun r => fmtHour r.timestamp)
    hourKeyOf rs emptyStore3.minute emptyStore3.hour
    (fun r hr => hourKeyOf_fmtMinute (hval r hr)) ?_
    (fun k hk => absurd hk (by simp [keysOf, emptyStore3]))
    (by simp [keysOf, emptyStore3])
    (fun k2 => by simp [lookupKey, joinBy, emptyStats, emptyStore3]) hk
  rw [List.pairwise_map]
  refine hchron.imp_of_mem ?_
  intro a b ha hb hab
  rw [fmtMinute_eq_trunc, fmtMinute_eq_trunc]
  refine (fmtSecond_le_iff (hval a ha).truncMinute.fits (hval b hb).truncMinute.fits).mpr ?_
  intro hcon
  exact hab (DateTime.lt_of_truncMin_lt hcon)

/-! ### Decimal round trips for the exporters -/

theorem parseNatAux_digits : ∀ (ds : List Nat) (acc : Nat), (∀ d ∈ ds, d < 10) →
    parseNatAux (ds.map Nat.digitChar) acc =
      some (ds.foldl (fun a d => a * 10 + d) acc) := by
  intro ds
  induction ds with
  | nil => intro acc _; rfl
  | cons d rest ih =>
    intro acc hbound
    rw [List.map_cons, parseNatAux, charDigit_digitChar d (hbound d (List.mem_cons_self _ _))]
    show parseNatAux (rest.map Nat.digitChar) (acc * 10 + d) =
      some ((d :: rest).foldl (fun a x => a * 10 + x) acc)
    rw [ih (acc * 10 + d) fun x hx => hbound x (List.mem_cons_of_mem _ hx)]
    rfl

theorem foldr_ofDigits (l : List Nat) :
    l.foldr (fun d a => a * 10 + d) 0 = Nat.ofDigits 10 l := by
  induction l with
  | nil => rfl
  | cons d rest ih =>
    rw [List.foldr_cons, ih, Nat.ofDigits_cons]
    omega

theorem foldl_reverse_digits (n : Nat) :
    ((Nat.digits 10 n).reverse).foldl (fun a d => a * 10 + d) 0 = n := by
  rw [List.foldl_reverse]
  have h : (Nat.digits 10 n).foldr (fun x y => y * 10 + x) 0 =
      (Nat.digits 10 n).foldr (fun d a => a * 10 + d) 0 := rfl
  rw [h, foldr_ofDigits]
  exact Nat.ofDigits_digits 10 n

theorem parseNat_natStr (n : Nat) : parseNat (natStr n) = some n := by
  by_cases hn : n = 0
  · subst hn
    decide
  · have hds : natChars n = ((Nat.digits 10 n).reverse).map Nat.digitChar := by
      rw [natChars, if_neg hn]
    have hne : (Nat.digits 10 n).reverse ≠ [] := by
      simp [Nat.digits_ne_nil_iff_ne_zero, hn]
    obtain ⟨d, ds', hcons⟩ := List.exists_cons_of_ne_nil hne
    have hbound : ∀ x ∈ (Nat.digits 10 n).reverse, x < 10 := by
      intro x hx
      exact Nat.digits_lt_base (by omega) (List.mem_reverse.mp hx)
    show (match natChars n with
      | [] => none
      | cs => parseNatAux cs 0) = some n
    rw [hds, hcons, List.map_cons]
    show parseNatAux (Nat.digitChar d :: ds'.map Nat.digitChar) 0 = some n
    have hrun := parseNatAux_digits (d :: ds') 0 (by rw [← hcons]; exact hbound)
    rw [List.map_cons] at hrun
    rw [hrun, ← hcons, foldl_reverse_digits]

theorem roundHalfEven_abs_le (q : ℚ) : |(roundHalfEven q : ℚ) - q| ≤ 1 / 2 := by
  rw [roundHalfEven]
  split
  case isTrue h =>
    have hfr : q - (⌊q⌋ : ℚ) = 1 / 2 := by
      rw [← Int.self_sub_floor] at h
      exact h
    split
    case isTrue he =>
      rw [show ((⌊q⌋ : ℤ) : ℚ) - q = -(q - (⌊q⌋ : ℚ)) from by ring, abs_neg, hfr]
      rw [abs_of_nonneg (by norm_num)]
    case isFalse he =>
      push_cast
      rw [show (⌊q⌋ : ℚ) + 1 - q = 1 - (q - (⌊q⌋ : ℚ)) from by ring, hfr]
      rw [show (1 : ℚ) - 1 / 2 = 1 / 2 from by norm_num]
      rw [abs_of_nonneg (by norm_num)]
  case isFalse h =>
    rw [abs_sub_comm]
    exact abs_sub_round q

theorem digitChar_ne_dash : ∀ d < 10, Nat.digitChar d ≠ '-' := by decide

theorem digitChar_ne_dot : ∀ d < 10, Nat.digitChar d ≠ '.' := by decide

theorem natChars_head : ∀ n : Nat, ∃ d ds, natChars n = Nat.digitChar d :: ds ∧ d < 10 := by
  intro n
  by_cases hn : n = 0
  · subst hn
    exact ⟨0, [], rfl, by omega⟩
  · have hne : (Nat.digits 10 n).reverse ≠ [] := by
      simp [Nat.digits_ne_nil_iff_ne_zero, hn]
    obtain ⟨d, ds', hcons⟩ := List.exists_cons_of_ne_nil hne
    have hd : d < 10 := by
      have hmem : d ∈ (Nat.digits 10 n).reverse := by
        rw [hcons]
        exact List.mem_cons_self _ _
      exact Nat.digits_lt_base (by omega) (List.mem_reverse.mp hmem)
    exact ⟨d, ds'.map Nat.digitChar, by rw [natChars, if_neg hn, hcons, List.map_cons], hd⟩

theorem parseFixed2Chars_eval (x y : Nat) (hy : y ≤ 99) :
    parseFixed2Chars (natChars x ++ '.' :: pad2 y) = some (((x * 100 + y : Nat) : ℚ) / 100) := by
  have hrev : (natChars x ++ '.' :: pad2 y).reverse =
      Nat.digitChar (y % 10) :: Nat.digitChar (y / 10) :: '.' :: (natChars x).reverse := by
    rw [pad2]
    simp
  rw [parseFixed2Chars, hrev]
  have hq1 := charDigit_digitChar (y / 10) (by omega)
  have hq2 := charDigit_digitChar (y % 10) (by omega)
  have hpn : parseNat ⟨(natChars x).reverse.reverse⟩ = some x := by
    rw [List.reverse_reverse]
    exact parseNat_natStr x
  simp only [if_pos rfl, hpn, hq1, hq2]
  have harith : x * 100 + y / 10 * 10 + y % 10 = x * 100 + y := by omega
  rw [harith]
  simp

theorem parseFixed2_fmt2 (q : ℚ) :
    parseFixed2 (fmt2 q) = some ((roundHalfEven (q * 100) : ℚ) / 100) := by
  rw [fmt2]
  obtain ⟨d, ds, hnat, hd⟩ := natChars_head ((roundHalfEven (q * 100)).natAbs / 100)
  by_cases hneg : roundHalfEven (q * 100) < 0
  · rw [if_pos hneg]
    show parseFixed2 ⟨'-' :: (natChars ((roundHalfEven (q * 100)).natAbs / 100) ++
      '.' :: pad2 ((roundHalfEven (q * 100)).natAbs % 100))⟩ = _
    rw [parseFixed2]
    show Option.map (fun q => -q) (parseFixed2Chars
      (natChars ((roundHalfEven (q * 100)).natAbs / 100) ++
        '.' :: pad2 ((roundHalfEven (q * 100)).natAbs % 100))) = _
    rw [parseFixed2Chars_eval _ _ (by omega)]
    rw [Option.map_some']
    congr 1
    have hsum : (roundHalfEven (q * 100)).natAbs / 100 * 100 +
        (roundHalfEven (q * 100)).natAbs % 100 = (roundHalfEven (q * 100)).natAbs := by
      omega
    rw [hsum]
    have hcast : ((roundHalfEven (q * 100)).natAbs : ℚ) = -(roundHalfEven (q * 100) : ℚ) := by
      have h2 : ((roundHalfEven (q * 100)).natAbs : ℤ) = -(roundHalfEven (q * 100)) := by
        omega
      have h4 : (((roundHalfEven (q * 100)).natAbs : ℤ) : ℚ) =
          ((-(roundHalfEven (q * 100)) : ℤ) : ℚ) := by
        rw [h2]
      push_cast at h4
      rw [Int.cast_natAbs]
      rw [Int.cast_abs]
      exact h4
    rw [hcast]
    ring
  · rw [if_neg hneg]
    rw [List.nil_append]
    show parseFixed2 ⟨natChars ((roundHalfEven (q * 100)).natAbs / 100) ++
      '.' :: pad2 ((roundHalfEven (q * 100)).natAbs % 100)⟩ = _
    rw [parseFixed2]
    have hdata : (String.mk (natChars ((roundHalfEven (q * 100)).natAbs / 100) ++
        '.' :: pad2 ((roundHalfEven (q * 100)).natAbs % 100))).data =
        natChars ((roundHalfEven (q * 100)).natAbs / 100) ++
          '.' :: pad2 ((roundHalfEven (q * 100)).natAbs % 100) := rfl
    split
    next cs heq =>
      rw [hdata, hnat] at heq
      exact absurd (List.head_eq_of_cons_eq heq.symm).symm (digitChar_ne_dash d hd)
    next cs heq =>
      rw [hdata, parseFixed2Chars_eval _ _ (by omega)]
      have hsum : (roundHalfEven (q * 100)).natAbs / 100 * 100 +
          (roundHalfEven (q * 100)).natAbs % 100 = (roundHalfEven (q * 100)).natAbs := by
        omega
      rw [hsum]
      congr 2
      have h3 : (((roundHalfEven (q * 100)).natAbs : ℤ)) = roundHalfEven (q * 100) := by
        omega
      have h4 : (((roundHalfEven (q * 100)).natAbs : ℤ) : ℚ) =
          ((roundHalfEven (q * 100) : ℤ) : ℚ) := by
        rw [h3]
      push_cast at h4
      rw [Int.cast_natAbs]
      rw [Int.cast_abs]
      exact h4

theorem pyRound2_close (q : ℚ) :
    |(roundHalfEven (q * 100) : ℚ) / 100 - q| ≤ 1 / 200 := by
  have h := roundHalfEven_abs_le (q * 100)
  have heq : (roundHalfEven (q * 100) : ℚ) / 100 - q =
      ((roundHalfEven (q * 100) : ℚ) - q * 100) / 100 := by
    ring
  rw [heq, abs_div, abs_of_pos (show (0 : ℚ) < 100 by norm_num)]
  linarith

theorem jsonLookup_toJson (data : StoreMap) :
    ∀ k, jsonLookup (toJson data) k = (lookupKey data k).map fun s =>
      (⟨s.sent, s.received, s.avg_rtt, s.success_count, s.fail_count,
        s.packet_loss⟩ : JsonRecord) := by
  induction data with
  | nil => intro k; rfl
  | cons kv rest ih =>
    intro k
    obtain ⟨k', v⟩ := kv
    rw [toJson, List.map_cons, jsonLookup, lookupKey]
    by_cases hk : k' = k
    · rw [if_pos hk, if_pos hk]
      rfl
    · rw [if_neg hk, if_neg hk]
      exact ih k

theorem csvRow_roundtrip {data : StoreMap} (hnd : (keysOf data).Nodup)
    {k : String} {s : AggregatedStats} (hmem : (k, s) ∈ data) :
    ∃ row ∈ csvRows data, parseCsvRow row =
      some (k, s.sent, s.received, (roundHalfEven (s.avg_rtt * 100) : ℚ) / 100) := by
  refine ⟨[k, natStr s.sent, natStr s.received, fmt2 s.avg_rtt,
    natStr s.success_count, natStr s.fail_count, fmt2 (s.packet_loss * 100)], ?_, ?_⟩
  · rw [csvRows]
    refine List.mem_filterMap.mpr
      ⟨k, sortStrings_mem.mpr (List.mem_map_of_mem Prod.fst hmem), ?_⟩
    rw [mem_lookupKey hnd hmem]
    rfl
  · rw [parseCsvRow]
    rw [parseNat_natStr, parseNat_natStr, parseFixed2_fmt2]

/-- Claim C9: exporting a bucket store to CSV or JSON and re-parsing the
written rows recovers, for every time key, the exact `sent` and `received`
counts, and the `avg_rtt` value — exactly for JSON and within the two-decimal
rounding tolerance `1/200` for CSV. -/
theorem C9_export_roundtrip :
    (∀ (data : StoreMap), (keysOf data).Nodup → ∀ k s, (k, s) ∈ data →
      ∃ row ∈ csvRows data,
        parseCsvRow row = some (k, s.sent, s.received,
          (roundHalfEven (s.avg_rtt * 100) : ℚ) / 100) ∧
        |(roundHalfEven (s.avg_rtt * 100) : ℚ) / 100 - s.avg_rtt| ≤ 1 / 200) ∧
    (∀ (data : StoreMap), (keysOf data).Nodup → ∀ k s, (k, s) ∈ data →
      jsonLookup (toJson data) k =
        some ⟨s.sent, s.received, s.avg_rtt, s.success_count, s.fail_count,
          s.packet_loss⟩) := by
  constructor
  · intro data hnd k s hmem
    obtain ⟨row, hrow, hparse⟩ := csvRow_roundtrip hnd hmem
    exact ⟨row, hrow, hparse, pyRound2_close s.avg_rtt⟩
  · intro data hnd k s hmem
    rw [jsonLookup_toJson data k, mem_lookupKey hnd hmem]
    rfl

/-- Witness for C9: both round trips instantiated at the 70%-loss bucket of
the two-second store. -/
theorem C9_export_roundtrip_witness :
    (∃ row ∈ csvRows wsd2adj,
      parseCsvRow row = some (fmtSecond wdt, ws1.sent, ws1.received,
        (roundHalfEven (ws1.avg_rtt * 100) : ℚ) / 100) ∧
      |(roundHalfEven (ws1.avg_rtt * 100) : ℚ) / 100 - ws1.avg_rtt| ≤ 1 / 200) ∧
    jsonLookup (toJson wsd2adj) (fmtSecond wdt) =
      some ⟨ws1.sent, ws1.received, ws1.avg_rtt, ws1.success_count, ws1.fail_count,
        ws1.packet_loss⟩ :=
  ⟨C9_export_roundtrip.1 wsd2adj (by decide) (fmtSecond wdt) ws1
      (List.mem_cons_self _ _),
    C9_export_roundtrip.2 wsd2adj (by decide) (fmtSecond wdt) ws1
      (List.mem_cons_self _ _)⟩

/-- Three successful probes with RTTs 1, 2, 3 ingested out of chronological
order: second 0, then second 1, then second 0 again. -/
def cxR1 : TestResult := ⟨wdt, true, some 1⟩

def cxR2 : TestResult := ⟨wdt1, true, some 2⟩

def cxR3 : TestResult := ⟨wdt, true, some 3⟩

def cxResults : List TestResult := [cxR1, cxR2, cxR3]

def cxStore : Store3 := cxResults.foldl updateStats emptyStore3

/-- The same three probes ingested in chronological order. -/
def cxSorted : List TestResult := [cxR1, cxR3, cxR2]

/-- Claim C10: each ingest feeds the same observation into the second-,
minute- and hour-resolution stores, so the three stay consistent: every
minute bucket's `sent`, `received`, `success_count` and `fail_count` equal
the sums of those counters over the second buckets of that minute (and
likewise hour buckets over their minute buckets) for every ingestion
sequence with valid timestamps; and when results are ingested in
chronological (non-decreasing timestamp) order, every minute bucket's RTT
list is the concatenation of its second buckets' RTT lists (and likewise
for hour buckets over minute buckets). -/
theorem C10_cross_resolution (rs : List TestResult)
    (hval : ∀ r ∈ rs, r.timestamp.Valid) :
    ((∀ mk mb, (mk, mb) ∈ (rs.foldl updateStats emptyStore3).minute →
        mb.sent = sumBy (rs.foldl updateStats emptyStore3).second minuteKeyOf mk
            (fun s => s.sent) ∧
        mb.received = sumBy (rs.foldl updateStats emptyStore3).second minuteKeyOf mk
            (fun s => s.received) ∧
        mb.success_count = sumBy (rs.foldl updateStats emptyStore3).second minuteKeyOf mk
            (fun s => s.success_count) ∧
        mb.fail_count = sumBy (rs.foldl updateStats emptyStore3).second minuteKeyOf mk
            (fun s => s.fail_count)) ∧
      (∀ hk hb, (hk, hb) ∈ (rs.foldl updateStats emptyStore3).hour →
        hb.sent = sumBy (rs.foldl updateStats emptyStore3).minute hourKeyOf hk
            (fun s => s.sent) ∧
        hb.received = sumBy (rs.foldl updateStats emptyStore3).minute hourKeyOf hk
            (fun s => s.received) ∧
        hb.success_count = sumBy (rs.foldl updateStats emptyStore3).minute hourKeyOf hk
            (fun s => s.success_count) ∧
        hb.fail_count = sumBy (rs.foldl updateStats emptyStore3).minute hourKeyOf hk
            (fun s => s.fail_count))) ∧
    (rs.Pairwise (fun a b => ¬ DateTime.lt b.timestamp a.timestamp) →
      (∀ mk mb, (mk, mb) ∈ (rs.foldl updateStats emptyStore3).minute →
        mb.rtts = joinBy (rs.foldl updateStats emptyStore3).second minuteKeyOf mk) ∧
      (∀ hk hb, (hk, hb) ∈ (rs.foldl updateStats emptyStore3).hour →
        hb.rtts = joinBy (rs.foldl updateStats emptyStore3).minute hourKeyOf hk)) := by
  have hndm : (keysOf (rs.foldl updateStats emptyStore3).minute).Nodup := by
    rw [foldl_updateStats_minute]
    exact fold_keys_nodup (fun r => fmtMinute r.timestamp) rs emptyStore3.minute
      (by simp [keysOf, emptyStore3])
  have hndh : (keysOf (rs.foldl updateStats emptyStore3).hour).Nodup := by
    rw [foldl_updateStats_hour]
    exact fold_keys_nodup (fun r => fmtHour r.timestamp) rs emptyStore3.hour
      (by simp [keysOf, emptyStore3])
  refine ⟨⟨?_, ?_⟩, ?_⟩
  · intro mk mb hmem
    have hlk := mem_lookupKey hndm hmem
    refine ⟨?_, ?_, ?_, ?_⟩
    · have h := fold_counts_minute (fun s => s.sent) (fun _ => 1)
        (fun r s => applyResult_sent r s) rfl rs hval mk
      rw [hlk] at h
      exact h
    · have h := fold_counts_minute (fun s => s.received)
        (fun r => if r.success = true then 1 else 0)
        (fun r s => applyResult_received r s) rfl rs hval mk
      rw [hlk] at h
      exact h
    · have h := fold_counts_minute (fun s => s.success_count)
        (fun r => if r.success = true then 1 else 0)
        (fun r s => applyResult_success r s) rfl rs hval mk
      rw [hlk] at h
      exact h
    · have h := fold_counts_minute (fun s => s.fail_count)
        (fun r => if r.success = true then 0 else 1)
        (fun r s => applyResult_fail r s) rfl rs hval mk
      rw [hlk] at h
      exact h
  · intro hk hb hmem
    have hlk := mem_lookupKey hndh hmem
    refine ⟨?_, ?_, ?_, ?_⟩
    · have h := fold_counts_hour (fun s => s.sent) (fun _ => 1)
        (fun r s => applyResult_sent r s) rfl rs hval hk
      rw [hlk] at h
      exact h
    · have h := fold_counts_hour (fun s => s.received)
        (fun r => if r.success = true then 1 else 0)
        (fun r s => applyResult_received r s) rfl rs hval hk
      rw [hlk] at h
      exact h
    · have h := fold_counts_hour (fun s => s.success_count)
        (fun r => if r.success = true then 1 else 0)
        (fun r s => applyResult_success r s) rfl rs hval hk
      rw [hlk] at h
      exact h
    · have h := fold_counts_hour (fun s => s.fail_count)
        (fun r => if r.success = true then 0 else 1)
        (fun r s => applyResult_fail r s) rfl rs hval hk
      rw [hlk] at h
      exact h
  · intro hchron
    constructor
    · intro mk mb hmem
      have hlk := mem_lookupKey hndm hmem
      have h := fold_rtts_minute rs hval hchron mk
      rw [hlk] at h
      exact h
    · intro hk hb hmem
      have hlk := mem_lookupKey hndh hmem
      have h := fold_rtts_hour rs hval hchron hk
      rw [hlk] at h
      exact h

/-- Witness for C10: the consistency statement instantiated at the three
chronologically ingested successful probes. -/
theorem C10_cross_resolution_witness :
    ((∀ mk mb, (mk, mb) ∈ (cxSorted.foldl updateStats emptyStore3).minute →
        mb.sent = sumBy (cxSorted.foldl updateStats emptyStore3).second minuteKeyOf mk
            (fun s => s.sent) ∧
        mb.received = sumBy (cxSorted.foldl updateStats emptyStore3).second minuteKeyOf mk
            (fun s => s.received) ∧
        mb.success_count = sumBy (cxSorted.foldl updateStats emptyStore3).second minuteKeyOf mk
            (fun s => s.success_count) ∧
        mb.fail_count = sumBy (cxSorted.foldl updateStats emptyStore3).second minuteKeyOf mk
            (fun s => s.fail_count)) ∧
      (∀ hk hb, (hk, hb) ∈ (cxSorted.foldl updateStats emptyStore3).hour →
        hb.sent = sumBy (cxSorted.foldl updateStats emptyStore3).minute hourKeyOf hk
            (fun s => s.sent) ∧
        hb.received = sumBy (cxSorted.foldl updateStats emptyStore3).minute hourKeyOf hk
            (fun s => s.received) ∧
        hb.success_count = sumBy (cxSorted.foldl updateStats emptyStore3).minute hourKeyOf hk
            (fun s => s.success_count) ∧
        hb.fail_count = sumBy (cxSorted.foldl updateStats emptyStore3).minute hourKeyOf hk
            (fun s => s.fail_count))) ∧
    ((∀ mk mb, (mk, mb) ∈ (cxSorted.foldl updateStats emptyStore3).minute →
        mb.rtts = joinBy (cxSorted.foldl updateStats emptyStore3).second minuteKeyOf mk) ∧
      (∀ hk hb, (hk, hb) ∈ (cxSorted.foldl updateStats emptyStore3).hour →
        hb.rtts = joinBy (cxSorted.foldl updateStats emptyStore3).minute hourKeyOf hk)) := by
  have h := C10_cross_resolution cxSorted (by decide)
  exact ⟨h.1, h.2 (by decide)⟩

/-- Counterexample to the unconditional RTT-concatenation reading of C10:
ingesting RTTs 1 and 3 at second 0 and RTT 2 at second 1 (in the order
1, 2, 3) gives the minute bucket the RTT list `[1, 2, 3]`, while its two
second buckets hold `[1, 3]` and `[2]` — no concatenation of the second
buckets' lists (in either store order) yields the minute bucket's list. -/
theorem C10_counterexample :
    cxStore.minute = [(fmtMinute wdt, ⟨3, 3, [(1 : ℚ), 2, 3], 3, 0⟩)] ∧
    cxStore.second = [(fmtSecond wdt, ⟨2, 2, [(1 : ℚ), 3], 2, 0⟩),
      (fmtSecond wdt1, ⟨1, 1, [(2 : ℚ)], 1, 0⟩)] ∧
    minuteKeyOf (fmtSecond wdt) = some (fmtMinute wdt) ∧
    minuteKeyOf (fmtSecond wdt1) = some (fmtMinute wdt) ∧
    joinBy cxStore.second minuteKeyOf (fmtMinute wdt) = [(1 : ℚ), 3, 2] ∧
    [(1 : ℚ), 3] ++ [2] ≠ [1, 2, 3] ∧ [(2 : ℚ)] ++ [1, 3] ≠ [1, 2, 3] :=
  ⟨rfl, rfl, rfl, rfl, rfl, by norm_num, by norm_num⟩

end NetMon
